import Mathlib

/-!
# CineFlare Investment Settlement Engine — shallow embedding

This file embeds the core of the CineFlare repository in Lean 4:

* `ClaimSBT` (src/lib/xrpl.ts, second document): the soul-bound claim
  registry with its `pause`/`unpause` status operations and the
  unconditionally reverting transfer/approval overrides;
* `RewardNFT` (src/contracts/ProjectFactory.sol, second document):
  transferable reward tokens paired with staked claims
  (`mintReward`, `burnReward`, `hasActiveReward`);
* `StakeManager` (src/contracts/StakeManager.sol):
  `stakeAndMintReward` and `burnReward`;
* `ProjectVault` (src/lib/xrpl.ts, third document): `processPayment`,
  `addMilestone`, `unlockMilestone`, `addRevenue`, `distributeRevenue`;
* `OracleAdapter` (src/contracts/OracleAdapter.sol):
  `createMilestoneAttestation`, `verifyMilestoneAttestation`,
  `verifyXRPLPayment`, `batchVerifyXRPLPayments`,
  `setVerifierAuthorization`.

Modelling conventions:

* Solidity `revert` gives all-or-nothing semantics; every operation is a
  total function `Sys → Except Err Sys` and a failing operation leaves the
  state unchanged (`applyOp`).  Each `Err` constructor corresponds to one
  `require` message of the source, noted next to it.
* `uint256` is modelled as `Nat`.  Solidity 0.8 arithmetic reverts on
  overflow; none of the verified claims involves quantities anywhere near
  `2^256`, so overflow reverts are not modelled.
* Addresses are strings; the zero address is the empty string `""`.
  EVM `mapping`s are association lists with a default value (`mget`);
  `mset` prepends, the lookup takes the most recent binding.
* `keccak256` is modelled symbolically as an injective function on byte
  lists (the identity on the `abi.encodePacked` byte encoding); this is
  the standard collision-free ideal-hash model.  `abi.encodePacked` is
  modelled concretely: `u256` big-endian words and raw string bytes.
* `ecrecover` (inside `createMilestoneAttestation`) is abstracted: the
  operation takes the recovered signer identity as a parameter and keeps
  the `authorizedVerifiers` check of the source.
* `onlyOwner` / `msg.sender` trust boundaries: administrative operations
  are modelled as directly invocable (the owner calls them); operations
  that check `msg.sender` against stored owners take the caller as a
  parameter.
-/

namespace CineFlare

/-- Addresses are opaque strings; `""` is the zero address. -/
abbrev Addr := String

/-- The vault's own token-holding address (the `ProjectVault` contract). -/
def vaultAddr : Addr := "vault"

/-! ## Mapping helpers (EVM `mapping` as association list with default) -/

/-- Lookup with default: EVM mappings return the zero value for absent keys. -/
def mget {κ ν : Type} [DecidableEq κ] (m : List (κ × ν)) (k : κ) (d : ν) : ν :=
  ((m.find? (fun p => decide (p.1 = k))).map Prod.snd).getD d

/-- Mapping store: prepend; `mget` takes the most recent binding. -/
def mset {κ ν : Type} (m : List (κ × ν)) (k : κ) (v : ν) : List (κ × ν) :=
  (k, v) :: m

/-! ## Byte-level encoding and the symbolic keccak256 -/

/-- Bytes of a string (`abi.encodePacked` of a single `string` argument).
Characters are taken by code point; all strings in scope are ASCII. -/
def strBytes (s : String) : List Nat :=
  s.data.map Char.toNat

/-- Big-endian base-256 digits, fixed width. -/
def beBytes : Nat → Nat → List Nat
  | 0, _ => []
  | k + 1, n => beBytes k (n / 256) ++ [n % 256]

/-- A `uint256` as 32 big-endian bytes (`abi.encodePacked` of a `uint256`). -/
def u256 (n : Nat) : List Nat := beBytes 32 n

/-- Symbolic `keccak256`: modelled as the identity on the packed byte
encoding.  All the proofs use of it is injectivity (collision freedom),
which holds for this ideal model. -/
def keccakB (b : List Nat) : List Nat := b

/-- Hex digit character (lower case), as produced when a `bytes32` value is
rendered as a string. -/
def hexDigit (n : Nat) : Char := Char.ofNat (if n < 10 then 48 + n else 87 + n)

/-- Two hex characters of one byte. -/
def hexByte (n : Nat) : List Char := [hexDigit (n / 16), hexDigit (n % 16)]

/-- The standard `0x…` string rendering of a byte value (the form in which a
returned `bytes32` attestation key circulates as a string, e.g. in the
repository's UI event logs). -/
def hexEncode (bs : List Nat) : String :=
  String.mk ('0' :: 'x' :: (bs.map hexByte).flatten)

/-! ## Data model (structs of the source) -/

/-- `ClaimSBT.ClaimStatus` (src/lib/xrpl.ts line 154). -/
inductive ClaimStatus
  | Active
  | Staked
  | Slashed
deriving DecidableEq, Repr

/-- `ClaimSBT.Claim` (src/lib/xrpl.ts lines 156-163) together with the
ERC-721 owner of the token. -/
structure Claim where
  owner : Addr
  projectId : Nat
  basisPoints : Nat
  status : ClaimStatus
  joinPrice : Nat
  xrplSourceTx : String
  timestamp : Nat
deriving DecidableEq, Repr

/-- `RewardNFT.RewardData` (ProjectFactory.sol lines 153-159) together with
the ERC-721 owner; `owner = none` means the token does not exist (burned). -/
structure RewardData where
  owner : Option Addr
  claimTokenId : Nat
  projectId : Nat
  basisPoints : Nat
  mintTimestamp : Nat
  isActive : Bool
deriving DecidableEq, Repr

/-- `StakeManager.StakeInfo` (StakeManager.sol lines 18-23). -/
structure StakeInfo where
  claimTokenId : Nat
  staker : Addr
  stakeTimestamp : Nat
  isStaked : Bool
deriving DecidableEq, Repr

/-- Zero value of `StakeInfo` (EVM mapping default). -/
def StakeInfo.zero : StakeInfo :=
  { claimTokenId := 0, staker := "", stakeTimestamp := 0, isStaked := false }

/-- `ProjectVault.MilestoneStatus` (src/lib/xrpl.ts line 342). -/
inductive MilestoneStatus
  | Pending
  | Unlocked
  | Completed
deriving DecidableEq, Repr

/-- `ProjectVault.Milestone` (src/lib/xrpl.ts lines 355-362). -/
structure Milestone where
  name : String
  description : String
  unlockAmount : Nat
  status : MilestoneStatus
  unlockTimestamp : Nat
  attestationHash : String
deriving DecidableEq, Repr

/-- `ProjectVault.Project` (src/lib/xrpl.ts lines 344-353). -/
structure Project where
  projectId : Nat
  title : String
  description : String
  creator : Addr
  totalFunding : Nat
  totalRaised : Nat
  isActive : Bool
  createdAt : Nat
deriving DecidableEq, Repr

/-- `ProjectVault.RevenueEntry` (src/lib/xrpl.ts lines 364-368). -/
structure RevenueEntry where
  amount : Nat
  timestamp : Nat
  source : String
deriving DecidableEq, Repr

/-- `OracleAdapter.MilestoneAttestation` (OracleAdapter.sol lines 27-36). -/
structure MilestoneAttestation where
  projectId : Nat
  milestoneIndex : Nat
  milestoneName : String
  description : String
  proofHash : String
  timestamp : Nat
  verifier : Addr
  verified : Bool
deriving DecidableEq, Repr

/-- Zero value of `MilestoneAttestation` (EVM mapping default). -/
def MilestoneAttestation.zero : MilestoneAttestation :=
  { projectId := 0, milestoneIndex := 0, milestoneName := "", description := ""
    proofHash := "", timestamp := 0, verifier := "", verified := false }

/-- `OracleAdapter.XRPLPaymentProof` (OracleAdapter.sol lines 38-46). -/
structure PaymentProof where
  txHash : String
  sender : Addr
  recipient : Addr
  amount : Nat
  timestamp : Nat
  blockNumber : Nat
  verified : Bool
deriving DecidableEq, Repr

/-- Zero value of `PaymentProof` (EVM mapping default). -/
def PaymentProof.zero : PaymentProof :=
  { txHash := "", sender := "", recipient := "", amount := 0
    timestamp := 0, blockNumber := 0, verified := false }

/-- Error taxonomy: one constructor per `require`/`revert` message of the
embedded source code (message quoted next to each constructor). -/
inductive Err
  | projectInactive        -- "Project not active"
  | duplicatePayment       -- "Payment already processed"
  | invalidAmount          -- "Invalid amount"
  | unverifiedPayment      -- "XRPL payment not verified"
  | contributionTooSmall   -- "Contribution too small"
  | invalidShare           -- mintClaim, spec 4.1: InvalidShare
  | tokenNotFound          -- "Token does not exist" / ERC721 invalid token
  | invalidMilestone       -- "Invalid milestone"
  | milestoneAlreadyUnlocked -- "Milestone already unlocked"
  | invalidAttestation     -- "Invalid attestation"
  | invalidUnlockAmount    -- "Invalid unlock amount"
  | noRevenue              -- "No revenue to distribute" / "No revenue available"
  | noActiveClaims         -- "No active claims"
  | notClaimOwner          -- "Not claim owner"
  | claimAlreadyStaked     -- "Claim already staked"
  | rewardAlreadyExists    -- "Reward NFT already exists" / "Reward already exists for this claim"
  | claimNotActive         -- "Claim not active"
  | notRewardOwner         -- "Not reward NFT owner"
  | invalidRewardNFT       -- "Invalid reward NFT"
  | rewardAlreadyBurned    -- "Reward already burned"
  | nonTransferable        -- "SBT: Token is non-transferable"
  | alreadyVerified        -- "Payment already verified"
  | unauthorizedVerifier   -- "Unauthorized verifier"
  | lengthMismatch         -- "Array length mismatch"
  | insufficientBalance    -- ERC20 transfer with insufficient balance
deriving DecidableEq, Repr

/-- Combined ledger state: one `ProjectVault` together with the shared
`ClaimSBT`, `RewardNFT`, `StakeManager`, `OracleAdapter` and the ERC-20
revenue token balances. -/
structure Sys where
  project : Project
  milestones : List Milestone
  revenueEntries : List RevenueEntry
  userContributions : List (Addr × Nat)
  processedPayments : List (List Nat × Bool)
  claims : List Claim
  userClaims : List (Addr × List Nat)
  projectClaims : List (Nat × List Nat)
  rewards : List RewardData
  claimToReward : List (Nat × Nat)
  stakes : List (Nat × StakeInfo)
  userStakes : List (Addr × List Nat)
  authorizedVerifiers : List (Addr × Bool)
  milestoneAttestations : List (List Nat × MilestoneAttestation)
  xrplPaymentProofs : List (String × PaymentProof)
  balances : List (Addr × Nat)
deriving DecidableEq, Repr

/-- Project/vault configuration at deployment (`ProjectVault` constructor). -/
structure Config where
  projectId : Nat
  title : String
  description : String
  creator : Addr
  totalFunding : Nat
  createdAt : Nat
  vaultTokenBalance : Nat
deriving DecidableEq, Repr

/-- Initial state: the `ProjectVault` constructor (src/lib/xrpl.ts lines
422-450) with empty registries; the vault is funded with
`cfg.vaultTokenBalance` revenue tokens. -/
def initSys (cfg : Config) : Sys :=
  { project :=
      { projectId := cfg.projectId, title := cfg.title
        description := cfg.description, creator := cfg.creator
        totalFunding := cfg.totalFunding, totalRaised := 0
        isActive := true, createdAt := cfg.createdAt }
    milestones := [], revenueEntries := [], userContributions := []
    processedPayments := [], claims := [], userClaims := [], projectClaims := []
    rewards := [], claimToReward := [], stakes := [], userStakes := []
    authorizedVerifiers := [], milestoneAttestations := [], xrplPaymentProofs := []
    balances := [(vaultAddr, cfg.vaultTokenBalance)] }

/-! ## OracleAdapter operations -/

/-- `OracleAdapter.setVerifierAuthorization` (OracleAdapter.sol lines 88-91). -/
def setVerifierAuthorization (s : Sys) (verifier : Addr) (authorized : Bool) : Sys :=
  { s with authorizedVerifiers := mset s.authorizedVerifiers verifier authorized }

/-- The attestation key of `createMilestoneAttestation`:
`keccak256(abi.encodePacked(projectId, milestoneIndex, proofHash,
block.timestamp))` (OracleAdapter.sol lines 134-139). -/
def attestationKey (projectId milestoneIndex : Nat) (proofHash : String) (time : Nat) :
    List Nat :=
  keccakB (u256 projectId ++ u256 milestoneIndex ++ strBytes proofHash ++ u256 time)

/-- `OracleAdapter.createMilestoneAttestation` (OracleAdapter.sol lines
113-154).  The `ecrecover` of the signature over the message digest is
abstracted: `signer` is the recovered identity; the authorization check of
the source is kept.  Returns the attestation key and the new state. -/
def createMilestoneAttestation (s : Sys) (signer : Addr) (projectId milestoneIndex : Nat)
    (milestoneName description proofHash : String) (time : Nat) :
    Except Err (List Nat × Sys) :=
  if mget s.authorizedVerifiers signer false = true then
    .ok (attestationKey projectId milestoneIndex proofHash time,
      { s with milestoneAttestations := mset s.milestoneAttestations
                 (attestationKey projectId milestoneIndex proofHash time)
                 ({ projectId := projectId, milestoneIndex := milestoneIndex
                    milestoneName := milestoneName, description := description
                    proofHash := proofHash, timestamp := time, verifier := signer
                    verified := true }) })
  else .error .unauthorizedVerifier

/-- `OracleAdapter.verifyMilestoneAttestation` (OracleAdapter.sol lines
159-162): true iff the stored attestation is verified with a non-zero
verifier. -/
def verifyMilestoneAttestation (s : Sys) (attestationHash : List Nat) : Bool :=
  let att := mget s.milestoneAttestations attestationHash MilestoneAttestation.zero
  att.verified && att.verifier ≠ ""

/-- `OracleAdapter.isXRPLPaymentVerified` (OracleAdapter.sol lines 205-207). -/
def isXRPLPaymentVerified (s : Sys) (txHash : String) : Bool :=
  (mget s.xrplPaymentProofs txHash PaymentProof.zero).verified

/-- `OracleAdapter.verifyXRPLPayment` (OracleAdapter.sol lines 175-200):
fails when the reference already has a verified proof, otherwise stores a
verified proof and returns `true`. -/
def verifyXRPLPayment (s : Sys) (txHash : String) (sender recipient : Addr)
    (amount timestamp blockNumber : Nat) : Except Err (Bool × Sys) :=
  if (mget s.xrplPaymentProofs txHash PaymentProof.zero).verified = true then
    .error .alreadyVerified
  else
    let pf : PaymentProof :=
      { txHash := txHash, sender := sender, recipient := recipient
        amount := amount, timestamp := timestamp, blockNumber := blockNumber
        verified := true }
    .ok (true, { s with xrplPaymentProofs := mset s.xrplPaymentProofs txHash pf })

/-- One payment tuple of the batch call. -/
structure PaymentTuple where
  txHash : String
  sender : Addr
  recipient : Addr
  amount : Nat
  timestamp : Nat
  blockNumber : Nat
deriving DecidableEq, Repr

/-- Loop body of `batchVerifyXRPLPayments` (OracleAdapter.sol lines
233-247): entries whose reference already has a verified proof are
skipped, the rest store a verified proof. -/
def batchStore (m : List (String × PaymentProof)) : List PaymentTuple → List (String × PaymentProof)
  | [] => m
  | t :: rest =>
    let m1 :=
      if (mget m t.txHash PaymentProof.zero).verified = true then m
      else
        let pf : PaymentProof :=
          { txHash := t.txHash, sender := t.sender, recipient := t.recipient
            amount := t.amount, timestamp := t.timestamp, blockNumber := t.blockNumber
            verified := true }
        mset m t.txHash pf
    batchStore m1 rest

/-- Zipping the six parallel arrays of the batch call into tuples. -/
def zipPayments : List String → List Addr → List Addr → List Nat → List Nat → List Nat →
    List PaymentTuple
  | r :: rs, sd :: sds, rc :: rcs, a :: as2, t :: ts, b :: bs =>
    { txHash := r, sender := sd, recipient := rc, amount := a, timestamp := t
      blockNumber := b } :: zipPayments rs sds rcs as2 ts bs
  | _, _, _, _, _, _ => []

/-- `OracleAdapter.batchVerifyXRPLPayments` (OracleAdapter.sol lines
219-248): requires the six parallel arrays to have equal length, then
processes the entries in order (the parallel arrays are zipped into
tuples here). -/
def batchVerifyXRPLPayments (s : Sys) (txHashes : List String)
    (senders recipients : List Addr) (amounts timestamps blockNumbers : List Nat) :
    Except Err Sys :=
  if txHashes.length ≠ senders.length then .error .lengthMismatch
  else if txHashes.length ≠ recipients.length then .error .lengthMismatch
  else if txHashes.length ≠ amounts.length then .error .lengthMismatch
  else if txHashes.length ≠ timestamps.length then .error .lengthMismatch
  else if txHashes.length ≠ blockNumbers.length then .error .lengthMismatch
  else .ok { s with xrplPaymentProofs := batchStore s.xrplPaymentProofs
                      (zipPayments txHashes senders recipients amounts timestamps
                        blockNumbers) }

/-! ## ClaimSBT operations -/

/-- Modelled from the spec: `ClaimSBT.mintClaim` is invoked by
`ProjectVault.processPayment` (src/lib/xrpl.ts line 502) and declared in
the ABI (src/lib/contracts.ts line 23), but its body is not in the
repository snapshot.  Per spec section 4.1: fails with `InvalidShare` if
`basisPoints == 0`; otherwise mints a fresh claim token (sequential ids
from 0) to `to` with status `Active` and appends the id to the per-owner
and per-project indexes. -/
def mintClaim (s : Sys) (dst : Addr) (projectId basisPoints joinPrice : Nat)
    (xrplSourceTx : String) (time : Nat) : Except Err (Nat × Sys) :=
  if basisPoints = 0 then .error .invalidShare
  else
    let tokenId := s.claims.length
    let c : Claim :=
      { owner := dst, projectId := projectId, basisPoints := basisPoints
        status := .Active, joinPrice := joinPrice, xrplSourceTx := xrplSourceTx
        timestamp := time }
    .ok (tokenId,
      { s with claims := s.claims ++ [c]
               userClaims := mset s.userClaims dst (mget s.userClaims dst [] ++ [tokenId])
               projectClaims := mset s.projectClaims projectId
                 (mget s.projectClaims projectId [] ++ [tokenId]) })

/-- `ClaimSBT.pause` (src/lib/xrpl.ts lines 232-238): requires the token to
exist, then sets its status to `Staked` unconditionally. -/
def pause (s : Sys) (tokenId : Nat) : Except Err Sys :=
  match s.claims.get? tokenId with
  | none => .error .tokenNotFound
  | some c => .ok { s with claims := s.claims.set tokenId { c with status := .Staked } }

/-- `ClaimSBT.unpause` (src/lib/xrpl.ts lines 243-249): requires the token
to exist, then sets its status to `Active` unconditionally. -/
def unpause (s : Sys) (tokenId : Nat) : Except Err Sys :=
  match s.claims.get? tokenId with
  | none => .error .tokenNotFound
  | some c => .ok { s with claims := s.claims.set tokenId { c with status := .Active } }

/-- `ClaimSBT.approve` override (src/lib/xrpl.ts lines 299-301): reverts
unconditionally. -/
def claimApprove (_s : Sys) (_caller _dst : Addr) (_tokenId : Nat) : Except Err Sys :=
  .error .nonTransferable

/-- `ClaimSBT.setApprovalForAll` override (src/lib/xrpl.ts lines 303-305):
reverts unconditionally. -/
def claimSetApprovalForAll (_s : Sys) (_caller _operator : Addr) (_approved : Bool) :
    Except Err Sys :=
  .error .nonTransferable

/-- `ClaimSBT.transferFrom` / both `safeTransferFrom` overrides
(src/lib/xrpl.ts lines 310-320): revert unconditionally. -/
def claimTransferFrom (_s : Sys) (_caller _from _dst : Addr) (_tokenId : Nat) :
    Except Err Sys :=
  .error .nonTransferable

/-! ## RewardNFT operations -/

/-- `RewardNFT.mintReward` (ProjectFactory.sol lines 183-206): requires
`claimToReward[claimTokenId] == 0` (the zero sentinel), then mints the
next sequential token id — starting at 0 — and records the pairing. -/
def mintReward (s : Sys) (dst : Addr) (claimTokenId projectId basisPoints time : Nat) :
    Except Err (Nat × Sys) :=
  if mget s.claimToReward claimTokenId 0 = 0 then
    let tokenId := s.rewards.length
    let rd : RewardData :=
      { owner := some dst, claimTokenId := claimTokenId, projectId := projectId
        basisPoints := basisPoints, mintTimestamp := time, isActive := true }
    .ok (tokenId,
      { s with rewards := s.rewards ++ [rd]
               claimToReward := mset s.claimToReward claimTokenId tokenId })
  else .error .rewardAlreadyExists

/-- `RewardNFT.hasActiveReward` (ProjectFactory.sol lines 242-245):
`claimToReward[claimTokenId] != 0 && rewards[rewardTokenId].isActive`. -/
def hasActiveReward (s : Sys) (claimTokenId : Nat) : Bool :=
  let rewardTokenId := mget s.claimToReward claimTokenId 0
  rewardTokenId ≠ 0 && ((s.rewards.get? rewardTokenId).map RewardData.isActive).getD false

/-- `RewardNFT.burnReward` (ProjectFactory.sol lines 211-222): requires the
token to exist and be active; deactivates it, zeroes the pairing index and
burns the token. -/
def rewardNFTBurn (s : Sys) (tokenId : Nat) : Except Err Sys :=
  match s.rewards.get? tokenId with
  | none => .error .tokenNotFound
  | some rd =>
    if rd.owner = none then .error .tokenNotFound
    else if rd.isActive = false then .error .rewardAlreadyBurned
    else
      .ok { s with
        rewards := s.rewards.set tokenId { rd with isActive := false, owner := none }
        claimToReward := mset s.claimToReward rd.claimTokenId 0 }

/-- `RewardNFT` ERC-721 transfer: rewards are freely transferable
(`_beforeTokenTransfer` just defers to `super`, ProjectFactory.sol lines
250-259).  Approval-based transfers are not modelled; the caller must be
the current owner. -/
def rewardTransferFrom (s : Sys) (caller dst : Addr) (tokenId : Nat) : Except Err Sys :=
  match s.rewards.get? tokenId with
  | none => .error .tokenNotFound
  | some rd =>
    if rd.owner = none then .error .tokenNotFound
    else if rd.owner ≠ some caller then .error .notRewardOwner
    else .ok { s with rewards := s.rewards.set tokenId { rd with owner := some dst } }

/-! ## StakeManager operations -/

/-- `StakeManager.stakeAndMintReward` (StakeManager.sol lines 48-79):
requires the caller to own the claim, the claim not to be marked staked,
no active reward paired, and the claim status `Active`; then pauses the
claim, records the stake and mints a reward with the claim's share
snapshot. -/
def stakeAndMintReward (s : Sys) (caller : Addr) (claimId time : Nat) : Except Err Sys :=
  match s.claims.get? claimId with
  | none => .error .tokenNotFound
  | some cd =>
    if cd.owner ≠ caller then .error .notClaimOwner
    else if (mget s.stakes claimId StakeInfo.zero).isStaked = true then
      .error .claimAlreadyStaked
    else if hasActiveReward s claimId = true then .error .rewardAlreadyExists
    else if cd.status ≠ .Active then .error .claimNotActive
    else
      match mintReward
          { s with
            claims := s.claims.set claimId { cd with status := .Staked }
            stakes := mset s.stakes claimId
                        ({ claimTokenId := claimId, staker := caller
                           stakeTimestamp := time, isStaked := true })
            userStakes := mset s.userStakes caller
                            (mget s.userStakes caller [] ++ [claimId]) }
          caller claimId cd.projectId cd.basisPoints time with
      | .error e => .error e
      | .ok (_, s3) => .ok s3

/-- Modelled from the spec/ABI: `RewardNFT.claimOf` is called by
`StakeManager.burnReward` (StakeManager.sol line 87) but has no body in
the repository snapshot; per the pairing data it returns
`rewards[rewardId].claimTokenId` (the claim the reward is paired with,
`0` for an absent reward). -/
def claimOf (s : Sys) (rewardId : Nat) : Nat :=
  ((s.rewards.get? rewardId).map RewardData.claimTokenId).getD 0

/-- `StakeManager.burnReward` (StakeManager.sol lines 84-100): requires the
caller to own the reward and `claimOf(rewardId) != 0`; burns the reward,
unpauses the underlying claim and clears the stake mark. -/
def stakeManagerBurnReward (s : Sys) (caller : Addr) (rewardId : Nat) : Except Err Sys :=
  match s.rewards.get? rewardId with
  | none => .error .tokenNotFound
  | some rd =>
    if rd.owner = none then .error .tokenNotFound
    else if rd.owner ≠ some caller then .error .notRewardOwner
    else if rd.claimTokenId = 0 then .error .invalidRewardNFT
    else
      match rewardNFTBurn s rewardId with
      | .error e => .error e
      | .ok s1 =>
        match unpause s1 rd.claimTokenId with
        | .error e => .error e
        | .ok s2 =>
          .ok { s2 with
            stakes := mset s2.stakes rd.claimTokenId
              ({ mget s2.stakes rd.claimTokenId StakeInfo.zero with isStaked := false }) }

/-! ## ProjectVault operations -/

/-- `ProjectVault.addMilestone` (src/lib/xrpl.ts lines 455-473). -/
def addMilestone (s : Sys) (name description : String) (unlockAmount : Nat) :
    Except Err Sys :=
  if s.project.isActive = false then .error .projectInactive
  else if unlockAmount = 0 then .error .invalidUnlockAmount
  else
    let m : Milestone :=
      { name := name, description := description, unlockAmount := unlockAmount
        status := .Pending, unlockTimestamp := 0, attestationHash := "" }
    .ok { s with milestones := s.milestones ++ [m] }

/-- `ProjectVault.processPayment` (src/lib/xrpl.ts lines 479-511): checks
project active, payment reference not yet processed, positive amount and
oracle verification; computes `basisPoints = amount * 10000 /
totalFunding`, failing when the floor is zero; then — atomically with the
mint — adds to `totalRaised` and `userContributions` and marks the
reference processed, and mints the claim. -/
def processPayment (s : Sys) (investor : Addr) (xrpAmount : Nat) (xrplTxHash : String)
    (xrpPrice time : Nat) : Except Err Sys :=
  if s.project.isActive = false then .error .projectInactive
  else if mget s.processedPayments (keccakB (strBytes xrplTxHash)) false = true then
    .error .duplicatePayment
  else if xrpAmount = 0 then .error .invalidAmount
  else if isXRPLPaymentVerified s xrplTxHash = false then .error .unverifiedPayment
  else if xrpAmount * 10000 / s.project.totalFunding = 0 then .error .contributionTooSmall
  else
    match mintClaim
        { s with
          project := { s.project with totalRaised := s.project.totalRaised + xrpAmount }
          userContributions := mset s.userContributions investor
                                 (mget s.userContributions investor 0 + xrpAmount)
          processedPayments := mset s.processedPayments
                                 (keccakB (strBytes xrplTxHash)) true }
        investor s.project.projectId (xrpAmount * 10000 / s.project.totalFunding)
        xrpPrice xrplTxHash time with
    | .error e => .error e
    | .ok (_, s2) => .ok s2

/-- `ProjectVault.unlockMilestone` (src/lib/xrpl.ts lines 516-532): requires
a valid index and status `Pending`; converts the string argument with
`keccak256(abi.encodePacked(attestationHash))` and requires the oracle to
verify that key; then sets the milestone `Unlocked` recording timestamp
and attestation string. -/
def unlockMilestone (s : Sys) (milestoneIndex : Nat) (attestationHash : String)
    (time : Nat) : Except Err Sys :=
  match s.milestones.get? milestoneIndex with
  | none => .error .invalidMilestone
  | some m =>
    if m.status ≠ .Pending then .error .milestoneAlreadyUnlocked
    else if verifyMilestoneAttestation s (keccakB (strBytes attestationHash)) = false then
      .error .invalidAttestation
    else
      .ok { s with milestones := s.milestones.set milestoneIndex (
        { m with status := .Unlocked, unlockTimestamp := time
                 attestationHash := attestationHash }) }

/-- `ProjectVault.addRevenue` (src/lib/xrpl.ts lines 537-550): positive
amount appended to the pending revenue queue. -/
def addRevenue (s : Sys) (amount : Nat) (source : String) (time : Nat) : Except Err Sys :=
  if amount = 0 then .error .invalidAmount
  else
    let e : RevenueEntry := { amount := amount, timestamp := time, source := source }
    .ok { s with revenueEntries := s.revenueEntries ++ [e] }

/-- Sum of the pending revenue entries (the `totalRevenue` loop of
`distributeRevenue`, src/lib/xrpl.ts lines 559-562). -/
def totalRevenueOf (s : Sys) : Nat :=
  (s.revenueEntries.map RevenueEntry.amount).foldl (· + ·) 0

/-- ERC-20 `safeTransfer`: moves `amount` from `from` to `to`, failing on
insufficient balance. -/
def tokenTransfer (bal : List (Addr × Nat)) (from_ dst : Addr) (amount : Nat) :
    Except Err (List (Addr × Nat)) :=
  if mget bal from_ 0 < amount then .error .insufficientBalance
  else
    let b1 := mset bal from_ (mget bal from_ 0 - amount)
    .ok (mset b1 dst (mget b1 dst 0 + amount))

/-- First pass of `distributeRevenue` (src/lib/xrpl.ts lines 572-578):
count the active claims of the project and sum their basis points;
`getClaimData` reverts for an absent token. -/
def activeTotals (s : Sys) : List Nat → Except Err (Nat × Nat)
  | [] => .ok (0, 0)
  | id :: rest =>
    match s.claims.get? id with
    | none => .error .tokenNotFound
    | some cd =>
      match activeTotals s rest with
      | .error e => .error e
      | .ok (n, bp) =>
        if cd.status = .Active then .ok (n + 1, bp + cd.basisPoints) else .ok (n, bp)

/-- Second pass of `distributeRevenue` (src/lib/xrpl.ts lines 583-591): for
each active claim transfer `totalRevenue * basisPoints /
totalActiveBasisPoints` (floor) from the vault to the claim's owner when
positive. -/
def payoutPass (s : Sys) (total totalShare : Nat) :
    List Nat → List (Addr × Nat) → Except Err (List (Addr × Nat))
  | [], bal => .ok bal
  | id :: rest, bal =>
    match s.claims.get? id with
    | none => .error .tokenNotFound
    | some cd =>
      if cd.status = .Active then
        let share := total * cd.basisPoints / totalShare
        if 0 < share then
          match tokenTransfer bal vaultAddr cd.owner share with
          | .error e => .error e
          | .ok bal1 => payoutPass s total totalShare rest bal1
        else payoutPass s total totalShare rest bal
      else payoutPass s total totalShare rest bal

/-- `ProjectVault.distributeRevenue` (src/lib/xrpl.ts lines 555-597):
requires a non-empty queue with positive total and at least one active
claim; pays each active claim's owner its floored pro-rata share and
clears the queue. -/
def distributeRevenue (s : Sys) : Except Err Sys :=
  if s.revenueEntries.length = 0 then .error .noRevenue
  else if totalRevenueOf s = 0 then .error .noRevenue
  else
    match activeTotals s (mget s.projectClaims s.project.projectId []) with
    | .error e => .error e
    | .ok (activeClaims, totalActiveBasisPoints) =>
      if activeClaims = 0 then .error .noActiveClaims
      else
        match payoutPass s (totalRevenueOf s) totalActiveBasisPoints
            (mget s.projectClaims s.project.projectId []) s.balances with
        | .error e => .error e
        | .ok bal => .ok { s with balances := bal, revenueEntries := [] }

/-! ## The operation alphabet and reachability -/

/-- Externally invocable operations of the engine. -/
inductive Op
  | processPayment (investor : Addr) (amount : Nat) (ref : String) (price time : Nat)
  | addMilestone (name description : String) (unlockAmount : Nat)
  | unlockMilestone (index : Nat) (attestationHash : String) (time : Nat)
  | addRevenue (amount : Nat) (source : String) (time : Nat)
  | distributeRevenue
  | stake (caller : Addr) (claimId time : Nat)
  | burnReward (caller : Addr) (rewardId : Nat)
  | pause (claimId : Nat)
  | unpause (claimId : Nat)
  | claimApprove (caller dst : Addr) (tokenId : Nat)
  | claimSetApprovalForAll (caller operator_ : Addr) (approved : Bool)
  | claimTransferFrom (caller from_ dst : Addr) (tokenId : Nat)
  | rewardTransferFrom (caller dst : Addr) (tokenId : Nat)
  | verifyPayment (ref : String) (sender recipient : Addr) (amount time blockNumber : Nat)
  | batchVerifyPayments (refs : List String) (senders recipients : List Addr)
      (amounts times blockNumbers : List Nat)
  | createAttestation (signer : Addr) (projectId index : Nat)
      (name description proofRef : String) (time : Nat)
  | setVerifier (verifier : Addr) (authorized : Bool)
deriving DecidableEq, Repr

/-- Transition function: the `Except`-valued semantics of one operation. -/
def stepOp : Op → Sys → Except Err Sys
  | .processPayment investor amount ref price time, s =>
    processPayment s investor amount ref price time
  | .addMilestone name description unlockAmount, s => addMilestone s name description unlockAmount
  | .unlockMilestone index attestationHash time, s => unlockMilestone s index attestationHash time
  | .addRevenue amount source time, s => addRevenue s amount source time
  | .distributeRevenue, s => distributeRevenue s
  | .stake caller claimId time, s => stakeAndMintReward s caller claimId time
  | .burnReward caller rewardId, s => stakeManagerBurnReward s caller rewardId
  | .pause claimId, s => pause s claimId
  | .unpause claimId, s => unpause s claimId
  | .claimApprove caller dst tokenId, s => claimApprove s caller dst tokenId
  | .claimSetApprovalForAll caller operator_ approved, s =>
    claimSetApprovalForAll s caller operator_ approved
  | .claimTransferFrom caller from_ dst tokenId, s => claimTransferFrom s caller from_ dst tokenId
  | .rewardTransferFrom caller dst tokenId, s => rewardTransferFrom s caller dst tokenId
  | .verifyPayment ref sender recipient amount time blockNumber, s =>
    match verifyXRPLPayment s ref sender recipient amount time blockNumber with
    | .error e => .error e
    | .ok (_, s1) => .ok s1
  | .batchVerifyPayments refs senders recipients amounts times blockNumbers, s =>
    batchVerifyXRPLPayments s refs senders recipients amounts times blockNumbers
  | .createAttestation signer projectId index name description proofRef time, s =>
    match createMilestoneAttestation s signer projectId index name description proofRef time with
    | .error e => .error e
    | .ok (_, s1) => .ok s1
  | .setVerifier verifier authorized, s => .ok (setVerifierAuthorization s verifier authorized)

/-- Committed effect of an operation: a failing operation reverts, leaving
the state unchanged (all-or-nothing semantics). -/
def applyOp (op : Op) (s : Sys) : Sys :=
  match stepOp op s with
  | .ok s1 => s1
  | .error _ => s

/-- States reachable from deployment using operations satisfying `P`. -/
inductive ReachableW (P : Op → Prop) (cfg : Config) : Sys → Prop
  | deployed : ReachableW P cfg (initSys cfg)
  | next {s : Sys} (op : Op) : ReachableW P cfg s → P op → ReachableW P cfg (applyOp op s)

/-- States reachable from deployment by any sequence of operations. -/
def Reachable (cfg : Config) (s : Sys) : Prop :=
  ReachableW (fun _ : Op => True) cfg s

/-- Run a list of operations in order (reverting ops leave the state). -/
def runOps (s : Sys) : List Op → Sys
  | [] => s
  | op :: rest => runOps (applyOp op s) rest

/-! ## Derived observations used in the verified properties -/

/-- Number of claims carrying a given source payment reference. -/
def refCount (l : List Claim) (r : String) : Nat :=
  l.countP (fun c => decide (c.xrplSourceTx = r))

/-- Number of active rewards paired with claim `c` (rewards table scan). -/
def activeRewardCount (l : List RewardData) (c : Nat) : Nat :=
  l.countP (fun rd => rd.isActive && decide (rd.claimTokenId = c))

/-- Exactly-once payment intake invariant: at most one claim per payment
reference, and a reference with a claim is marked processed. -/
def PayInv (s : Sys) : Prop :=
  ∀ r : String, refCount s.claims r ≤ 1 ∧
    (1 ≤ refCount s.claims r →
      mget s.processedPayments (keccakB (strBytes r)) false = true)

/-- Pairing discipline between a claim table and a reward table: a claim is
`Staked` iff exactly one active reward is paired with it, never more than
one active reward is paired with any claim, and every reward points at an
existing claim. -/
def PairOK (claims : List Claim) (rewards : List RewardData) : Prop :=
  (∀ i c, claims.get? i = some c →
    ((c.status = .Staked ↔ activeRewardCount rewards i = 1) ∧
      activeRewardCount rewards i ≤ 1)) ∧
  (∀ rd ∈ rewards, rd.claimTokenId < claims.length)

/-- Claim/reward pairing invariant of a ledger state. -/
def StakePairInv (s : Sys) : Prop :=
  PairOK s.claims s.rewards

/-- The status-update operations of the claim registry
(`ClaimSBT.pause` / `ClaimSBT.unpause` invoked directly). -/
def isStatusUpdateOp : Op → Bool
  | .pause _ => true
  | .unpause _ => true
  | _ => false

/-- The stake/burn path of the Reward/Stake Engine. -/
def isStakeBurnOp : Op → Bool
  | .stake _ _ _ => true
  | .burnReward _ _ => true
  | _ => false

/-- The total payout credited to address `a` by one distribution pass:
the sum over the project's claim ids of `total * basisPoints / totalShare`
for the active claims owned by `a` (src/lib/xrpl.ts lines 583-591). -/
def activePayoutSum (claims : List Claim) (total totalShare : Nat)
    (ids : List Nat) (a : Addr) : Nat :=
  (ids.map (fun id =>
    match claims.get? id with
    | some cd =>
      if cd.status = .Active ∧ cd.owner = a then total * cd.basisPoints / totalShare
      else 0
    | none => 0)).foldl (· + ·) 0


/-- Sum of the basis points of the active claims among `ids`
(the `totalActiveBasisPoints` loop, src/lib/xrpl.ts lines 572-578). -/
def activeShareSum (claims : List Claim) (ids : List Nat) : Nat :=
  (ids.map (fun id =>
    match claims.get? id with
    | some cd => if cd.status = .Active then cd.basisPoints else 0
    | none => 0)).foldl (· + ·) 0


/-! ## Concrete deployments and traces used in the verification -/

/-- Demo project configuration (spec section 8 scenario: `totalFunding
= 100000`). -/
def cfgW : Config :=
  { projectId := 7, title := "Indie Film", description := "demo"
    creator := "carol", totalFunding := 100000, createdAt := 1
    vaultTokenBalance := 100000 }

/-- After the relayer verifies payment `tx1` on the oracle. -/
def sW1 : Sys := applyOp (.verifyPayment "tx1" "rSender" "rDest" 25000 11 12) (initSys cfgW)

/-- After `processPayment` mints the claim for `tx1` (claim id 0,
2500 basis points, owner `alice`). -/
def sW2 : Sys := applyOp (.processPayment "alice" 25000 "tx1" 62 13) sW1

/-- After calling the registry's `pause` directly on claim 0. -/
def sPaused : Sys := applyOp (.pause 0) sW2

/-- After `alice` stakes claim 0 (reward token 0 minted). -/
def sStaked : Sys := applyOp (.stake "alice" 0 20) sW2

/-- After calling the registry's `unpause` directly on the staked claim 0. -/
def sUnpaused : Sys := applyOp (.unpause 0) sStaked

/-- An active claim used by the distribution examples. -/
def exClaim (o : Addr) (bp : Nat) : Claim :=
  { owner := o, projectId := 7, basisPoints := bp, status := .Active
    joinPrice := 0, xrplSourceTx := "", timestamp := 0 }

/-- Distribution example 1: active shares [2000, 3000, 5000], pending
revenue 1000 (spec section 8). -/
def exSys1 : Sys :=
  { initSys cfgW with
    claims := [exClaim "ada" 2000, exClaim "ben" 3000, exClaim "cyd" 5000]
    projectClaims := [(7, [0, 1, 2])]
    revenueEntries := [{ amount := 1000, timestamp := 0, source := "box_office" }]
    balances := [(vaultAddr, 1000)] }

/-- Example 1 after `distributeRevenue`. -/
def exSys1d : Sys := applyOp .distributeRevenue exSys1

/-- Distribution example 2: active shares [3333, 3333, 3334], pending
revenue 10 (spec section 8). -/
def exSys2 : Sys :=
  { initSys cfgW with
    claims := [exClaim "ada" 3333, exClaim "ben" 3333, exClaim "cyd" 3334]
    projectClaims := [(7, [0, 1, 2])]
    revenueEntries := [{ amount := 10, timestamp := 0, source := "vod" }]
    balances := [(vaultAddr, 10)] }

/-- Example 2 after `distributeRevenue`. -/
def exSys2d : Sys := applyOp .distributeRevenue exSys2

/-- Oracle with verifier `ver` authorized. -/
def sAtt0 : Sys := applyOp (.setVerifier "ver" true) (initSys cfgW)

/-- With one `Pending` milestone added. -/
def sAtt1 : Sys := applyOp (.addMilestone "m1" "d1" 500) sAtt0

/-- The attestation key returned by the successful
`createMilestoneAttestation` call below. -/
def attKeyC6 : List Nat := attestationKey 7 0 "p" 5

/-- After a successful `createMilestoneAttestation` by `ver` (stored
verified, key `attKeyC6`). -/
def sAtt2 : Sys := applyOp (.createAttestation "ver" 7 0 "m1" "d1" "p" 5) sAtt1

/-- Small project used for the basis-points counterexample
(`totalFunding = 100`). -/
def cfg9 : Config :=
  { projectId := 1, title := "t", description := "d", creator := "bob"
    totalFunding := 100, createdAt := 0, vaultTokenBalance := 0 }

/-- Oracle-verified payment `t9` of amount 200 (double the funding target). -/
def s9 : Sys := applyOp (.verifyPayment "t9" "sx" "rx" 200 1 2) (initSys cfg9)

/-- After processing the over-large payment `t9`. -/
def s9b : Sys := applyOp (.processPayment "bob" 200 "t9" 50 3) s9

/-- A claim whose status is `Slashed` (the data model's administrative
terminal status). -/
def slashedClaim : Claim :=
  { owner := "eve", projectId := 7, basisPoints := 100, status := .Slashed
    joinPrice := 0, xrplSourceTx := "xs", timestamp := 0 }

/-- A registry holding one `Slashed` claim. -/
def sSlashed : Sys := { initSys cfgW with claims := [slashedClaim] }


/-! ## Small lemmas about the mapping and list helpers -/

theorem mget_mset_self {κ ν : Type} [DecidableEq κ] (m : List (κ × ν)) (k : κ) (v : ν)
    (d : ν) : mget (mset m k v) k d = v := by
  simp [mget, mset, List.find?]

theorem mget_mset_ne {κ ν : Type} [DecidableEq κ] (m : List (κ × ν)) (k k' : κ) (v : ν)
    (d : ν) (h : k' ≠ k) : mget (mset m k v) k' d = mget m k' d := by
  have : decide (k = k') = false := by
    simp [decide_eq_false_iff_not]
    exact fun e => h e.symm
  simp [mget, mset, List.find?, this]

theorem countP_set (p : α → Bool) (l : List α) (i : Nat) (a b : α)
    (h : l.get? i = some b) :
    (l.set i a).countP p =
      l.countP p + (if p a then 1 else 0) - (if p b then 1 else 0) := by
  induction l generalizing i with
  | nil => cases h
  | cons hd tl ih =>
    cases i with
    | zero =>
      cases h
      simp only [List.set, List.countP_cons]
      omega
    | succ n =>
      simp only [List.get?] at h
      have := ih n h
      simp only [List.set, List.countP_cons, this]
      have hb : tl.countP p + (if p b then 1 else 0) ≤ tl.countP p + 1 := by
        split <;> omega
      have hble : (if p b then 1 else 0) ≤ tl.countP p := by
        by_cases hp : p b
        · simp only [hp, if_true]
          have : 0 < tl.countP p := List.countP_pos_iff.mpr ⟨b, List.get?_mem h, hp⟩
          omega
        · simp [hp]
      omega

theorem countP_set_congr (p : α → Bool) (l : List α) (i : Nat) (a b : α)
    (h : l.get? i = some b) (hp : p a = p b) : (l.set i a).countP p = l.countP p := by
  rw [countP_set p l i a b h, hp]
  have hble : (if p b then 1 else 0) ≤ l.countP p := by
    by_cases hq : p b
    · simp only [hq, if_true]
      have : 0 < l.countP p := List.countP_pos_iff.mpr ⟨b, List.get?_mem h, hq⟩
      omega
    · simp [hq]
  omega

/-! ## Success-shape lemmas for the operations -/

theorem setVerifier_core (s : Sys) (v : Addr) (b : Bool) :
    (setVerifierAuthorization s v b).claims = s.claims ∧
    (setVerifierAuthorization s v b).rewards = s.rewards ∧
    (setVerifierAuthorization s v b).processedPayments = s.processedPayments :=
  ⟨rfl, rfl, rfl⟩

theorem addMilestone_ok (s s' : Sys) (n d : String) (u : Nat)
    (h : addMilestone s n d u = .ok s') :
    s' = { s with milestones := s.milestones ++
      [{ name := n, description := d, unlockAmount := u
         status := .Pending, unlockTimestamp := 0, attestationHash := "" }] } := by
  unfold addMilestone at h
  split at h
  · cases h
  · split at h
    · cases h
    · cases h; rfl

theorem unlockMilestone_ok (s s' : Sys) (i : Nat) (a : String) (t : Nat)
    (h : unlockMilestone s i a t = .ok s') :
    ∃ m : Milestone, s.milestones.get? i = some m ∧
      s' = { s with milestones := s.milestones.set i (
        { m with status := .Unlocked, unlockTimestamp := t, attestationHash := a }) } := by
  unfold unlockMilestone at h
  split at h
  · cases h
  · next m hm =>
    split at h
    · cases h
    · split at h
      · cases h
      · cases h; exact ⟨m, hm, rfl⟩

theorem addRevenue_ok (s s' : Sys) (a : Nat) (src : String) (t : Nat)
    (h : addRevenue s a src t = .ok s') :
    a ≠ 0 ∧ s' = { s with revenueEntries := s.revenueEntries ++
      [{ amount := a, timestamp := t, source := src }] } := by
  unfold addRevenue at h
  split at h
  · cases h
  · cases h; exact ⟨by assumption, rfl⟩

theorem distributeRevenue_ok (s s' : Sys) (h : distributeRevenue s = .ok s') :
    ∃ bal, s' = { s with balances := bal, revenueEntries := [] } := by
  unfold distributeRevenue at h
  split at h
  · cases h
  · split at h
    · cases h
    · split at h
      · cases h
      · split at h
        · cases h
        · split at h
          · cases h
          · cases h; exact ⟨_, rfl⟩

theorem verifyXRPLPayment_ok (s s' : Sys) (r : String) (sd rc : Addr) (a t b : Nat)
    (v : Bool) (h : verifyXRPLPayment s r sd rc a t b = .ok (v, s')) :
    (mget s.xrplPaymentProofs r PaymentProof.zero).verified = false ∧ v = true ∧
    s' = { s with xrplPaymentProofs := mset s.xrplPaymentProofs r (
      { txHash := r, sender := sd, recipient := rc, amount := a, timestamp := t
        blockNumber := b, verified := true }) } := by
  unfold verifyXRPLPayment at h
  split at h
  · cases h
  · next hv =>
    cases h
    exact ⟨by simpa using hv, rfl, rfl⟩

theorem batchVerifyXRPLPayments_ok (s s' : Sys) (refs : List String)
    (sds rcs : List Addr) (ams ts bs : List Nat)
    (h : batchVerifyXRPLPayments s refs sds rcs ams ts bs = .ok s') :
    s' = { s with xrplPaymentProofs := batchStore s.xrplPaymentProofs
                    (zipPayments refs sds rcs ams ts bs) } := by
  unfold batchVerifyXRPLPayments at h
  split at h
  · cases h
  · split at h
    · cases h
    · split at h
      · cases h
      · split at h
        · cases h
        · split at h
          · cases h
          · cases h; rfl

section

attribute [local irreducible] attestationKey

theorem createMilestoneAttestation_ok (s s' : Sys) (sg : Addr) (p i : Nat)
    (n d pr : String) (t : Nat) (k : List Nat)
    (h : createMilestoneAttestation s sg p i n d pr t = .ok (k, s')) :
    ∃ att, s' = { s with milestoneAttestations := mset s.milestoneAttestations k att } := by
  unfold createMilestoneAttestation at h
  split at h
  · cases h; exact ⟨_, rfl⟩
  · cases h

end

theorem pause_ok (s s' : Sys) (t : Nat) (h : pause s t = .ok s') :
    ∃ c, s.claims.get? t = some c ∧
      s' = { s with claims := s.claims.set t { c with status := .Staked } } := by
  unfold pause at h
  split at h
  · cases h
  · next c hc => cases h; exact ⟨c, hc, rfl⟩

theorem unpause_ok (s s' : Sys) (t : Nat) (h : unpause s t = .ok s') :
    ∃ c, s.claims.get? t = some c ∧
      s' = { s with claims := s.claims.set t { c with status := .Active } } := by
  unfold unpause at h
  split at h
  · cases h
  · next c hc => cases h; exact ⟨c, hc, rfl⟩

theorem rewardTransferFrom_ok (s s' : Sys) (caller dst : Addr) (t : Nat)
    (h : rewardTransferFrom s caller dst t = .ok s') :
    ∃ rd, s.rewards.get? t = some rd ∧ rd.owner = some caller ∧
      s' = { s with rewards := s.rewards.set t { rd with owner := some dst } } := by
  unfold rewardTransferFrom at h
  split at h
  · cases h
  · next rd hrd =>
    split at h
    · cases h
    · split at h
      · cases h
      · next hne =>
        cases h
        refine ⟨rd, hrd, ?_, rfl⟩
        simpa using hne

theorem mintClaim_ok (s s' : Sys) (dst : Addr) (p bp jp : Nat) (tx : String) (t : Nat)
    (tid : Nat) (h : mintClaim s dst p bp jp tx t = .ok (tid, s')) :
    bp ≠ 0 ∧ tid = s.claims.length ∧
    s' = { s with
      claims := s.claims ++
        [{ owner := dst, projectId := p, basisPoints := bp, status := .Active
           joinPrice := jp, xrplSourceTx := tx, timestamp := t }]
      userClaims := mset s.userClaims dst (mget s.userClaims dst [] ++ [s.claims.length])
      projectClaims := mset s.projectClaims p
        (mget s.projectClaims p [] ++ [s.claims.length]) } := by
  unfold mintClaim at h
  split at h
  · cases h
  · cases h; exact ⟨by assumption, rfl, rfl⟩

theorem mintReward_ok (s s' : Sys) (dst : Addr) (c p bp t : Nat) (tid : Nat)
    (h : mintReward s dst c p bp t = .ok (tid, s')) :
    mget s.claimToReward c 0 = 0 ∧ tid = s.rewards.length ∧
    s' = { s with
      rewards := s.rewards ++
        [{ owner := some dst, claimTokenId := c, projectId := p, basisPoints := bp
           mintTimestamp := t, isActive := true }]
      claimToReward := mset s.claimToReward c s.rewards.length } := by
  unfold mintReward at h
  split at h
  · cases h; exact ⟨by assumption, rfl, rfl⟩
  · cases h

theorem processPayment_ok (s s' : Sys) (inv : Addr) (amt : Nat) (ref : String)
    (price t : Nat) (h : processPayment s inv amt ref price t = .ok s') :
    s.project.isActive = true ∧
    mget s.processedPayments (keccakB (strBytes ref)) false = false ∧
    amt ≠ 0 ∧ isXRPLPaymentVerified s ref = true ∧
    amt * 10000 / s.project.totalFunding ≠ 0 ∧
    s' = { s with
      project := { s.project with totalRaised := s.project.totalRaised + amt }
      userContributions := mset s.userContributions inv
                             (mget s.userContributions inv 0 + amt)
      processedPayments := mset s.processedPayments (keccakB (strBytes ref)) true
      claims := s.claims ++ [{ owner := inv, projectId := s.project.projectId
                               basisPoints := amt * 10000 / s.project.totalFunding
                               status := .Active, joinPrice := price
                               xrplSourceTx := ref, timestamp := t }]
      userClaims := mset s.userClaims inv (mget s.userClaims inv [] ++ [s.claims.length])
      projectClaims := mset s.projectClaims s.project.projectId
                         (mget s.projectClaims s.project.projectId []
                           ++ [s.claims.length]) } := by
  unfold processPayment at h
  split at h
  · cases h
  · next hact =>
    split at h
    · cases h
    · next hdup =>
      split at h
      · cases h
      · next hamt =>
        split at h
        · cases h
        · next hver =>
          split at h
          · cases h
          · next hbp =>
            split at h
            · cases h
            · next pr hm =>
              cases h
              obtain ⟨_, _, hs⟩ := mintClaim_ok _ _ _ _ _ _ _ _ _ hm
              refine ⟨by simpa using hact, by simpa using hdup, hamt,
                by simpa using hver, hbp, ?_⟩
              rw [hs]

theorem stakeAndMintReward_ok (s s' : Sys) (caller : Addr) (cid t : Nat)
    (h : stakeAndMintReward s caller cid t = .ok s') :
    ∃ cd, s.claims.get? cid = some cd ∧ cd.owner = caller ∧
      (mget s.stakes cid StakeInfo.zero).isStaked = false ∧
      hasActiveReward s cid = false ∧ cd.status = .Active ∧
      mget s.claimToReward cid 0 = 0 ∧
      s' = { s with
        claims := s.claims.set cid { cd with status := .Staked }
        stakes := mset s.stakes cid ({ claimTokenId := cid, staker := caller
                                       stakeTimestamp := t, isStaked := true })
        userStakes := mset s.userStakes caller (mget s.userStakes caller [] ++ [cid])
        rewards := s.rewards ++ [{ owner := some caller, claimTokenId := cid
                                   projectId := cd.projectId
                                   basisPoints := cd.basisPoints
                                   mintTimestamp := t, isActive := true }]
        claimToReward := mset s.claimToReward cid s.rewards.length } := by
  unfold stakeAndMintReward at h
  split at h
  · cases h
  · next cd hcd =>
    split at h
    · cases h
    · next hown =>
      split at h
      · cases h
      · next hstk =>
        split at h
        · cases h
        · next hrew =>
          split at h
          · cases h
          · next hact =>
            split at h
            · cases h
            · next pr hm =>
              cases h
              obtain ⟨hctr, _, hs⟩ := mintReward_ok _ _ _ _ _ _ _ _ hm
              refine ⟨cd, hcd, by simpa using hown, by simpa using hstk,
                by simpa using hrew, by simpa using hact, hctr, ?_⟩
              rw [hs]

theorem rewardNFTBurn_ok (s s' : Sys) (tid : Nat) (h : rewardNFTBurn s tid = .ok s') :
    ∃ rd, s.rewards.get? tid = some rd ∧ rd.owner ≠ none ∧ rd.isActive = true ∧
      s' = { s with
        rewards := s.rewards.set tid { rd with isActive := false, owner := none }
        claimToReward := mset s.claimToReward rd.claimTokenId 0 } := by
  unfold rewardNFTBurn at h
  split at h
  · cases h
  · next rd hrd =>
    split at h
    · cases h
    · next hone =>
      split at h
      · cases h
      · next hia =>
        cases h
        exact ⟨rd, hrd, hone, by simpa using hia, rfl⟩

theorem stakeManagerBurnReward_ok (s s' : Sys) (caller : Addr) (rid : Nat)
    (h : stakeManagerBurnReward s caller rid = .ok s') :
    ∃ rd cd, s.rewards.get? rid = some rd ∧ rd.owner = some caller ∧
      rd.claimTokenId ≠ 0 ∧ rd.isActive = true ∧
      s.claims.get? rd.claimTokenId = some cd ∧
      s' = { s with
        rewards := s.rewards.set rid { rd with isActive := false, owner := none }
        claimToReward := mset s.claimToReward rd.claimTokenId 0
        claims := s.claims.set rd.claimTokenId { cd with status := .Active }
        stakes := mset s.stakes rd.claimTokenId
                    ({ mget s.stakes rd.claimTokenId StakeInfo.zero with
                       isStaked := false }) } := by
  unfold stakeManagerBurnReward at h
  split at h
  · cases h
  · next rd hrd =>
    split at h
    · cases h
    · next hone =>
      split at h
      · cases h
      · next hown =>
        split at h
        · cases h
        · next hcid =>
          split at h
          · cases h
          · next s1 hb =>
            split at h
            · cases h
            · next s2 hu =>
              cases h
              obtain ⟨rd2, hrd2, _, hact2, hs1⟩ := rewardNFTBurn_ok _ _ _ hb
              rw [hrd] at hrd2
              injection hrd2 with he
              subst he
              subst hs1
              obtain ⟨cd, hcd, hs2⟩ := unpause_ok _ _ _ hu
              subst hs2
              exact ⟨rd, cd, hrd, by simpa using hown, hcid, hact2, hcd, rfl⟩

/-! ## List access helpers -/

theorem get?_set_self {α : Type} (l : List α) (i : Nat) (a b : α)
    (h : l.get? i = some b) : (l.set i a).get? i = some a := by
  induction l generalizing i with
  | nil => cases h
  | cons hd tl ih =>
    cases i with
    | zero => rfl
    | succ n => exact ih n h

theorem get?_set_ne2 {α : Type} (l : List α) (i j : Nat) (a : α) (h : i ≠ j) :
    (l.set i a).get? j = l.get? j := by
  induction l generalizing i j with
  | nil => rfl
  | cons hd tl ih =>
    cases i with
    | zero =>
      cases j with
      | zero => exact absurd rfl h
      | succ m => rfl
    | succ n =>
      cases j with
      | zero => rfl
      | succ m => exact ih n m (by omega)

theorem get?_append_left2 {α : Type} (l l2 : List α) (i : Nat) (b : α)
    (h : l.get? i = some b) : (l ++ l2).get? i = some b := by
  induction l generalizing i with
  | nil => cases h
  | cons hd tl ih =>
    cases i with
    | zero => exact h
    | succ n => exact ih n h

theorem get?_append_len {α : Type} (l : List α) (a : α) :
    (l ++ [a]).get? l.length = some a := by
  induction l with
  | nil => rfl
  | cons hd tl ih => exact ih

theorem mget_mset_bool_true {κ : Type} [DecidableEq κ] (m : List (κ × Bool))
    (k k' : κ) (h : mget m k' false = true) : mget (mset m k true) k' false = true := by
  by_cases he : k' = k
  · subst he; rw [mget_mset_self]
  · rw [mget_mset_ne _ _ _ _ _ he]; exact h

/-! ## refCount and activeRewardCount behaviour under the operations -/

theorem refCount_append (l : List Claim) (c : Claim) (r : String) :
    refCount (l ++ [c]) r = refCount l r + (if c.xrplSourceTx = r then 1 else 0) := by
  simp only [refCount, List.countP_append, List.countP_cons, List.countP_nil]
  split <;> rename_i hsp
  · simp only [Nat.zero_add]
    rw [if_pos (by simpa using hsp)]
  · simp only [Nat.zero_add, Nat.add_zero]
    rw [if_neg (by simpa using hsp), Nat.add_zero]

theorem refCount_set_status (l : List Claim) (i : Nat) (c c' : Claim)
    (hg : l.get? i = some c) (htx : c'.xrplSourceTx = c.xrplSourceTx) (r : String) :
    refCount (l.set i c') r = refCount l r :=
  countP_set_congr _ l i c' c hg (by simp [htx])

theorem activeRewardCount_append (l2 : List RewardData) (rd : RewardData)
    (i : Nat) :
    activeRewardCount (l2 ++ [rd]) i =
      activeRewardCount l2 i +
        (if rd.isActive = true ∧ rd.claimTokenId = i then 1 else 0) := by
  simp only [activeRewardCount, List.countP_append, List.countP_cons, List.countP_nil]
  by_cases hsp : (rd.isActive && decide (rd.claimTokenId = i)) = true
  · rw [if_pos (show rd.isActive = true ∧ rd.claimTokenId = i from by
      simpa [Bool.and_eq_true] using hsp)]
    simp only [hsp, if_true]
  · have hb : (rd.isActive && decide (rd.claimTokenId = i)) = false := by
      revert hsp
      cases rd.isActive && decide (rd.claimTokenId = i) <;> simp
    rw [if_neg (show ¬(rd.isActive = true ∧ rd.claimTokenId = i) from by
      simpa [Bool.and_eq_true] using hsp)]
    simp [hb]

/-! ## Exactly-once payment intake: preservation -/

theorem payInv_init (cfg : Config) : PayInv (initSys cfg) := by
  intro r
  constructor
  · simp [refCount, initSys]
  · intro hge
    simp [refCount, initSys] at hge

theorem payInv_applyOp (op : Op) (s : Sys) (h : PayInv s) : PayInv (applyOp op s) := by
  unfold applyOp
  cases hst : stepOp op s with
  | error e => exact h
  | ok s1 =>
    cases op with
    | processPayment inv amt ref price t =>
      simp only [stepOp] at hst
      obtain ⟨_, hdup, _, _, _, hs⟩ := processPayment_ok _ _ _ _ _ _ _ hst
      subst hs
      intro r
      have hold := h r
      by_cases hre : ref = r
      · subst hre
        have hcount0 : refCount s.claims ref = 0 := by
          rcases Nat.eq_zero_or_pos (refCount s.claims ref) with h0 | hpos
          · exact h0
          · exact absurd (hold.2 hpos) (by simp [hdup])
        constructor
        · simp only [refCount_append, hcount0]
          split <;> omega
        · intro _
          exact mget_mset_self _ _ _ _
      · constructor
        · simp only [refCount_append]
          rw [if_neg (by simpa using hre)]
          simpa using hold.1
        · intro hge
          simp only [refCount_append] at hge
          rw [if_neg (by simpa using hre), Nat.add_zero] at hge
          exact mget_mset_bool_true _ _ _ (hold.2 hge)
    | addMilestone n d u =>
      simp only [stepOp] at hst
      rw [addMilestone_ok _ _ _ _ _ hst]
      exact h
    | unlockMilestone i a t =>
      simp only [stepOp] at hst
      obtain ⟨m, _, hs⟩ := unlockMilestone_ok _ _ _ _ _ hst
      rw [hs]; exact h
    | addRevenue a src t =>
      simp only [stepOp] at hst
      rw [(addRevenue_ok _ _ _ _ _ hst).2]
      exact h
    | distributeRevenue =>
      simp only [stepOp] at hst
      obtain ⟨bal, hs⟩ := distributeRevenue_ok _ _ hst
      rw [hs]; exact h
    | stake caller cid t =>
      simp only [stepOp] at hst
      obtain ⟨cd, hcd, _, _, _, _, _, hs⟩ := stakeAndMintReward_ok _ _ _ _ _ hst
      subst hs
      intro r
      have hold := h r
      have hrc : refCount (s.claims.set cid { cd with status := .Staked }) r =
          refCount s.claims r :=
        refCount_set_status s.claims cid cd ({ cd with status := .Staked }) hcd rfl r
      simpa [hrc] using hold
    | burnReward caller rid =>
      simp only [stepOp] at hst
      obtain ⟨rd, cd, hrd, _, _, _, hcd, hs⟩ := stakeManagerBurnReward_ok _ _ _ _ hst
      subst hs
      intro r
      have hold := h r
      have : refCount (s.claims.set rd.claimTokenId { cd with status := .Active }) r =
          refCount s.claims r :=
        refCount_set_status s.claims rd.claimTokenId cd
          ({ cd with status := .Active }) hcd rfl r
      simpa [this] using hold
    | pause cid =>
      simp only [stepOp] at hst
      obtain ⟨c, hc, hs⟩ := pause_ok _ _ _ hst
      subst hs
      intro r
      have hold := h r
      have : refCount (s.claims.set cid { c with status := .Staked }) r =
          refCount s.claims r :=
        refCount_set_status s.claims cid c ({ c with status := .Staked }) hc rfl r
      simpa [this] using hold
    | unpause cid =>
      simp only [stepOp] at hst
      obtain ⟨c, hc, hs⟩ := unpause_ok _ _ _ hst
      subst hs
      intro r
      have hold := h r
      have : refCount (s.claims.set cid { c with status := .Active }) r =
          refCount s.claims r :=
        refCount_set_status s.claims cid c ({ c with status := .Active }) hc rfl r
      simpa [this] using hold
    | claimApprove caller dst tid =>
      simp only [stepOp, claimApprove] at hst
      cases hst
    | claimSetApprovalForAll caller op2 b =>
      simp only [stepOp, claimSetApprovalForAll] at hst
      cases hst
    | claimTransferFrom caller f dst tid =>
      simp only [stepOp, claimTransferFrom] at hst
      cases hst
    | rewardTransferFrom caller dst tid =>
      simp only [stepOp] at hst
      obtain ⟨rd, _, _, hs⟩ := rewardTransferFrom_ok _ _ _ _ _ hst
      rw [hs]; exact h
    | verifyPayment ref sd rc a t b =>
      simp only [stepOp] at hst
      cases hv : verifyXRPLPayment s ref sd rc a t b with
      | error e => rw [hv] at hst; cases hst
      | ok pr =>
        rw [hv] at hst
        cases hst
        obtain ⟨_, _, hs⟩ := verifyXRPLPayment_ok _ _ _ _ _ _ _ _ _ hv
        rw [hs]; exact h
    | batchVerifyPayments refs sds rcs ams ts bs =>
      simp only [stepOp] at hst
      rw [batchVerifyXRPLPayments_ok _ _ _ _ _ _ _ _ hst]
      exact h
    | createAttestation sg p i n d pr t =>
      simp only [stepOp] at hst
      cases hv : createMilestoneAttestation s sg p i n d pr t with
      | error e => rw [hv] at hst; cases hst
      | ok pr2 =>
        rw [hv] at hst
        cases hst
        obtain ⟨att, hs⟩ := createMilestoneAttestation_ok _ _ _ _ _ _ _ _ _ _ hv
        rw [hs]; exact h
    | setVerifier v b =>
      simp only [stepOp] at hst
      cases hst
      exact h

theorem invariant_of_reachableW {P : Op → Prop} {cfg : Config}
    {Inv : Sys → Prop} (hinit : Inv (initSys cfg))
    (hstep : ∀ op s, P op → Inv s → Inv (applyOp op s)) :
    ∀ s, ReachableW P cfg s → Inv s := by
  intro s hr
  induction hr with
  | deployed => exact hinit
  | next op _ hP ih => exact hstep op _ hP ih

theorem payInv_reachable (cfg : Config) (s : Sys) (h : Reachable cfg s) : PayInv s :=
  invariant_of_reachableW (payInv_init cfg)
    (fun op s1 _ hi => payInv_applyOp op s1 hi) s h

/-! ## More list access helpers -/

theorem lt_of_get?_some {α : Type} (l : List α) (i : Nat) (c : α)
    (h : l.get? i = some c) : i < l.length := by
  induction l generalizing i with
  | nil => cases h
  | cons hd tl ih =>
    cases i with
    | zero => simp
    | succ n => simpa using ih n h

theorem get?_append_inv {α : Type} (l : List α) (a : α) (i : Nat) (c : α)
    (h : (l ++ [a]).get? i = some c) (hne : i ≠ l.length) : l.get? i = some c := by
  induction l generalizing i with
  | nil =>
    cases i with
    | zero => exact absurd rfl hne
    | succ n => simp only [List.nil_append, List.get?] at h; cases n <;> cases h
  | cons hd tl ih =>
    cases i with
    | zero => exact h
    | succ n => exact ih n h (by simpa using hne)

theorem owner_after_set (l : List Claim) (i j : Nat) (c cj cj' : Claim)
    (hc : l.get? i = some c) (hj : l.get? j = some cj) (hown : cj'.owner = cj.owner) :
    ∃ c', (l.set j cj').get? i = some c' ∧ c'.owner = c.owner := by
  by_cases hij : i = j
  · subst hij
    rw [hc] at hj
    injection hj with hj2
    subst hj2
    exact ⟨cj', get?_set_self l i cj' c hc, hown⟩
  · exact ⟨c, by rw [get?_set_ne2 l j i cj' (fun hh => hij hh.symm)]; exact hc, rfl⟩

/-- No operation of the engine changes the owner of an existing claim
(the registry has no transfer path; minting only appends new claims). -/
theorem claimOwner_applyOp (op : Op) (s : Sys) (i : Nat) (c : Claim)
    (hc : s.claims.get? i = some c) :
    ∃ c', (applyOp op s).claims.get? i = some c' ∧ c'.owner = c.owner := by
  unfold applyOp
  cases hst : stepOp op s with
  | error e => exact ⟨c, hc, rfl⟩
  | ok s1 =>
    cases op with
    | processPayment inv amt ref price t =>
      simp only [stepOp] at hst
      obtain ⟨_, _, _, _, _, hs⟩ := processPayment_ok _ _ _ _ _ _ _ hst
      subst hs
      exact ⟨c, get?_append_left2 _ _ _ _ hc, rfl⟩
    | addMilestone n d u =>
      simp only [stepOp] at hst
      rw [addMilestone_ok _ _ _ _ _ hst]
      exact ⟨c, hc, rfl⟩
    | unlockMilestone i2 a t =>
      simp only [stepOp] at hst
      obtain ⟨m, _, hs⟩ := unlockMilestone_ok _ _ _ _ _ hst
      rw [hs]; exact ⟨c, hc, rfl⟩
    | addRevenue a src t =>
      simp only [stepOp] at hst
      rw [(addRevenue_ok _ _ _ _ _ hst).2]
      exact ⟨c, hc, rfl⟩
    | distributeRevenue =>
      simp only [stepOp] at hst
      obtain ⟨bal, hs⟩ := distributeRevenue_ok _ _ hst
      rw [hs]; exact ⟨c, hc, rfl⟩
    | stake caller cid t =>
      simp only [stepOp] at hst
      obtain ⟨cd, hcd, _, _, _, _, _, hs⟩ := stakeAndMintReward_ok _ _ _ _ _ hst
      subst hs
      exact owner_after_set s.claims i cid c cd _ hc hcd rfl
    | burnReward caller rid =>
      simp only [stepOp] at hst
      obtain ⟨rd, cd, hrd, _, _, _, hcd, hs⟩ := stakeManagerBurnReward_ok _ _ _ _ hst
      subst hs
      exact owner_after_set s.claims i rd.claimTokenId c cd _ hc hcd rfl
    | pause cid =>
      simp only [stepOp] at hst
      obtain ⟨c0, hc0, hs⟩ := pause_ok _ _ _ hst
      subst hs
      exact owner_after_set s.claims i cid c c0 _ hc hc0 rfl
    | unpause cid =>
      simp only [stepOp] at hst
      obtain ⟨c0, hc0, hs⟩ := unpause_ok _ _ _ hst
      subst hs
      exact owner_after_set s.claims i cid c c0 _ hc hc0 rfl
    | claimApprove caller dst tid =>
      simp only [stepOp, claimApprove] at hst
      cases hst
    | claimSetApprovalForAll caller op2 b =>
      simp only [stepOp, claimSetApprovalForAll] at hst
      cases hst
    | claimTransferFrom caller f dst tid =>
      simp only [stepOp, claimTransferFrom] at hst
      cases hst
    | rewardTransferFrom caller dst tid =>
      simp only [stepOp] at hst
      obtain ⟨rd, _, _, hs⟩ := rewardTransferFrom_ok _ _ _ _ _ hst
      rw [hs]; exact ⟨c, hc, rfl⟩
    | verifyPayment ref sd rc a t b =>
      simp only [stepOp] at hst
      cases hv : verifyXRPLPayment s ref sd rc a t b with
      | error e => rw [hv] at hst; cases hst
      | ok pr =>
        rw [hv] at hst
        cases hst
        obtain ⟨_, _, hs⟩ := verifyXRPLPayment_ok _ _ _ _ _ _ _ _ _ hv
        rw [hs]; exact ⟨c, hc, rfl⟩
    | batchVerifyPayments refs sds rcs ams ts bs =>
      simp only [stepOp] at hst
      rw [batchVerifyXRPLPayments_ok _ _ _ _ _ _ _ _ hst]
      exact ⟨c, hc, rfl⟩
    | createAttestation sg p i2 n d pr t =>
      simp only [stepOp] at hst
      cases hv : createMilestoneAttestation s sg p i2 n d pr t with
      | error e => rw [hv] at hst; cases hst
      | ok pr2 =>
        rw [hv] at hst
        cases hst
        obtain ⟨att, hs⟩ := createMilestoneAttestation_ok _ _ _ _ _ _ _ _ _ _ hv
        rw [hs]; exact ⟨c, hc, rfl⟩
    | setVerifier v b =>
      simp only [stepOp] at hst
      cases hst
      exact ⟨c, hc, rfl⟩

/-! ## Stake/reward pairing invariant -/

theorem count_set_deactivate (l : List RewardData) (r : Nat) (rd : RewardData)
    (hg : l.get? r = some rd) (hact : rd.isActive = true) (i : Nat) :
    activeRewardCount (l.set r { rd with isActive := false, owner := none }) i =
      activeRewardCount l i - (if rd.claimTokenId = i then 1 else 0) := by
  simp only [activeRewardCount]
  rw [countP_set _ l r _ rd hg]
  by_cases hci : rd.claimTokenId = i
  · simp [hci, hact]
  · simp [hci, hact]

theorem count_set_congr (l : List RewardData) (r : Nat) (rd rd' : RewardData)
    (hg : l.get? r = some rd) (hact : rd'.isActive = rd.isActive)
    (hcl : rd'.claimTokenId = rd.claimTokenId) (i : Nat) :
    activeRewardCount (l.set r rd') i = activeRewardCount l i := by
  simp only [activeRewardCount]
  exact countP_set_congr _ l r rd' rd hg (by rw [hact, hcl])

theorem count_pos_of_active (l : List RewardData) (r : Nat) (rd : RewardData)
    (hg : l.get? r = some rd) (hact : rd.isActive = true) :
    0 < activeRewardCount l rd.claimTokenId :=
  List.countP_pos_iff.mpr ⟨rd, List.get?_mem hg, by simp [hact]⟩

theorem pairInv_init (cfg : Config) : StakePairInv (initSys cfg) := by
  constructor
  · intro i c hc
    cases hc
  · intro rd hrd
    cases hrd

/-- `PairOK` is preserved when a fresh `Active` claim is appended and the
rewards are untouched. -/
theorem pairOK_mintClaim (claims : List Claim) (rewards : List RewardData)
    (h : PairOK claims rewards) (c : Claim) (hact : c.status = .Active) :
    PairOK (claims ++ [c]) rewards := by
  obtain ⟨hpair, hA1⟩ := h
  constructor
  · intro i ci hci
    by_cases hi : i = claims.length
    · subst hi
      rw [get?_append_len] at hci
      injection hci with hce
      subst hce
      have hz : activeRewardCount rewards claims.length = 0 :=
        List.countP_eq_zero.mpr (fun rd hrd => by
          have := hA1 rd hrd
          simp only [Bool.and_eq_true, decide_eq_true_eq]
          omega)
      refine ⟨?_, by omega⟩
      rw [hact, hz]
      constructor
      · intro hss; cases hss
      · intro h1; cases h1
    · exact hpair i ci (get?_append_inv _ _ _ _ hci hi)
  · intro rd hrd
    have := hA1 rd hrd
    simp only [List.length_append, List.length_cons, List.length_nil]
    omega

/-- `PairOK` is preserved by the stake step: the claim at `cid` goes from
`Active` to `Staked` and one fresh active reward paired with `cid` is
appended. -/
theorem pairOK_stake (claims : List Claim) (rewards : List RewardData)
    (h : PairOK claims rewards) (cid : Nat) (cd : Claim)
    (hcd : claims.get? cid = some cd) (hact : cd.status = .Active)
    (rd : RewardData) (hrdc : rd.claimTokenId = cid) (hrda : rd.isActive = true) :
    PairOK (claims.set cid { cd with status := .Staked }) (rewards ++ [rd]) := by
  obtain ⟨hpair, hA1⟩ := h
  have hcnt0 : activeRewardCount rewards cid = 0 := by
    obtain ⟨hiff, hle⟩ := hpair cid cd hcd
    have hne1 : ¬ activeRewardCount rewards cid = 1 := fun h1 => by
      rw [hact] at hiff
      exact absurd (hiff.mpr h1) (by intro hh; cases hh)
    omega
  constructor
  · intro i c hci
    by_cases hicid : i = cid
    · subst hicid
      rw [get?_set_self claims i _ cd hcd] at hci
      injection hci with hce
      subst hce
      rw [activeRewardCount_append, hcnt0, if_pos ⟨hrda, hrdc⟩]
      exact ⟨by constructor <;> (intro _; rfl), by omega⟩
    · rw [get?_set_ne2 claims cid i _ (fun hh => hicid hh.symm)] at hci
      rw [activeRewardCount_append,
        if_neg (fun hh => hicid (by rw [← hrdc, hh.2]))]
      rw [Nat.add_zero]
      exact hpair i c hci
  · intro rd2 hrd2
    simp only [List.length_set]
    rcases List.mem_append.mp hrd2 with hin | hnew
    · exact hA1 rd2 hin
    · have heq : rd2 = rd := by simpa using hnew
      subst heq
      rw [hrdc]
      exact lt_of_get?_some claims cid cd hcd

/-- `PairOK` is preserved by the burn step: the unique active reward of the
claim is deactivated and the claim goes back to `Active`. -/
theorem pairOK_burn (claims : List Claim) (rewards : List RewardData)
    (h : PairOK claims rewards) (rid : Nat) (rd : RewardData)
    (hrd : rewards.get? rid = some rd) (hact : rd.isActive = true)
    (cd : Claim) (hcd : claims.get? rd.claimTokenId = some cd) :
    PairOK (claims.set rd.claimTokenId { cd with status := .Active })
      (rewards.set rid { rd with isActive := false, owner := none }) := by
  obtain ⟨hpair, hA1⟩ := h
  have hpos : 0 < activeRewardCount rewards rd.claimTokenId :=
    count_pos_of_active rewards rid rd hrd hact
  have hle1 : activeRewardCount rewards rd.claimTokenId ≤ 1 := (hpair _ cd hcd).2
  have hone : activeRewardCount rewards rd.claimTokenId = 1 := by omega
  constructor
  · intro i c hci
    by_cases hic : i = rd.claimTokenId
    · subst hic
      rw [get?_set_self claims rd.claimTokenId _ cd hcd] at hci
      injection hci with hce
      subst hce
      rw [count_set_deactivate rewards rid rd hrd hact rd.claimTokenId, hone,
        if_pos rfl]
      refine ⟨?_, by omega⟩
      constructor
      · intro hss; cases hss
      · intro h1; cases h1
    · rw [get?_set_ne2 claims rd.claimTokenId i _ (fun hh => hic hh.symm)] at hci
      rw [count_set_deactivate rewards rid rd hrd hact i,
        if_neg (fun hh => hic hh.symm), Nat.sub_zero]
      exact hpair i c hci
  · intro rd2 hrd2
    simp only [List.length_set]
    rcases List.mem_or_eq_of_mem_set hrd2 with hin | hnew
    · exact hA1 rd2 hin
    · subst hnew
      exact hA1 rd (List.get?_mem hrd)

/-- `PairOK` is preserved by a reward transfer (only the owner changes). -/
theorem pairOK_transfer (claims : List Claim) (rewards : List RewardData)
    (h : PairOK claims rewards) (rid : Nat) (rd : RewardData)
    (hrd : rewards.get? rid = some rd) (dst : Addr) :
    PairOK claims (rewards.set rid { rd with owner := some dst }) := by
  obtain ⟨hpair, hA1⟩ := h
  constructor
  · intro i c hci
    rw [count_set_congr rewards rid rd ({ rd with owner := some dst }) hrd rfl rfl i]
    exact hpair i c hci
  · intro rd2 hrd2
    rcases List.mem_or_eq_of_mem_set hrd2 with hin | hnew
    · exact hA1 rd2 hin
    · subst hnew
      exact hA1 rd (List.get?_mem hrd)

theorem pairInv_applyOp (op : Op) (s : Sys) (hop : isStatusUpdateOp op = false)
    (h : StakePairInv s) : StakePairInv (applyOp op s) := by
  unfold applyOp
  cases hst : stepOp op s with
  | error e => exact h
  | ok s1 =>
    cases op with
    | processPayment inv amt ref price t =>
      simp only [stepOp] at hst
      obtain ⟨_, _, _, _, _, hs⟩ := processPayment_ok _ _ _ _ _ _ _ hst
      subst hs
      exact pairOK_mintClaim s.claims s.rewards h _ rfl
    | addMilestone n d u =>
      simp only [stepOp] at hst
      rw [addMilestone_ok _ _ _ _ _ hst]
      exact h
    | unlockMilestone i2 a t =>
      simp only [stepOp] at hst
      obtain ⟨m, _, hs⟩ := unlockMilestone_ok _ _ _ _ _ hst
      rw [hs]; exact h
    | addRevenue a src t =>
      simp only [stepOp] at hst
      rw [(addRevenue_ok _ _ _ _ _ hst).2]
      exact h
    | distributeRevenue =>
      simp only [stepOp] at hst
      obtain ⟨bal, hs⟩ := distributeRevenue_ok _ _ hst
      rw [hs]; exact h
    | stake caller cid t =>
      simp only [stepOp] at hst
      obtain ⟨cd, hcd, _, _, _, hact, _, hs⟩ := stakeAndMintReward_ok _ _ _ _ _ hst
      subst hs
      exact pairOK_stake s.claims s.rewards h cid cd hcd hact _ rfl rfl
    | burnReward caller rid =>
      simp only [stepOp] at hst
      obtain ⟨rd, cd, hrd, _, _, hact, hcd, hs⟩ := stakeManagerBurnReward_ok _ _ _ _ hst
      subst hs
      exact pairOK_burn s.claims s.rewards h rid rd hrd hact cd hcd
    | pause cid => simp [isStatusUpdateOp] at hop
    | unpause cid => simp [isStatusUpdateOp] at hop
    | claimApprove caller dst tid =>
      simp only [stepOp, claimApprove] at hst
      cases hst
    | claimSetApprovalForAll caller op2 b =>
      simp only [stepOp, claimSetApprovalForAll] at hst
      cases hst
    | claimTransferFrom caller f dst tid =>
      simp only [stepOp, claimTransferFrom] at hst
      cases hst
    | rewardTransferFrom caller dst tid =>
      simp only [stepOp] at hst
      obtain ⟨rd, hrd, _, hs⟩ := rewardTransferFrom_ok _ _ _ _ _ hst
      subst hs
      exact pairOK_transfer s.claims s.rewards h tid rd hrd dst
    | verifyPayment ref sd rc a t b =>
      simp only [stepOp] at hst
      cases hv : verifyXRPLPayment s ref sd rc a t b with
      | error e => rw [hv] at hst; cases hst
      | ok pr =>
        rw [hv] at hst
        cases hst
        obtain ⟨_, _, hs⟩ := verifyXRPLPayment_ok _ _ _ _ _ _ _ _ _ hv
        rw [hs]; exact h
    | batchVerifyPayments refs sds rcs ams ts bs =>
      simp only [stepOp] at hst
      rw [batchVerifyXRPLPayments_ok _ _ _ _ _ _ _ _ hst]
      exact h
    | createAttestation sg p i2 n d pr t =>
      simp only [stepOp] at hst
      cases hv : createMilestoneAttestation s sg p i2 n d pr t with
      | error e => rw [hv] at hst; cases hst
      | ok pr2 =>
        rw [hv] at hst
        cases hst
        obtain ⟨att, hs⟩ := createMilestoneAttestation_ok _ _ _ _ _ _ _ _ _ _ hv
        rw [hs]; exact h
    | setVerifier v b =>
      simp only [stepOp] at hst
      cases hst
      exact h

theorem pairInv_reachable (cfg : Config) (s : Sys)
    (h : ReachableW (fun op => isStatusUpdateOp op = false) cfg s) :
    StakePairInv s :=
  invariant_of_reachableW (pairInv_init cfg)
    (fun op s1 hP hi => pairInv_applyOp op s1 hP hi) s h

/-! ## Distribution arithmetic -/

theorem foldl_add_shift (l : List Nat) (b : Nat) :
    l.foldl (· + ·) b = b + l.foldl (· + ·) 0 := by
  induction l generalizing b with
  | nil => simp
  | cons x xs ih =>
    simp only [List.foldl_cons]
    rw [ih (b + x), ih (0 + x)]
    omega

theorem foldl_add_cons (x : Nat) (l : List Nat) :
    (x :: l).foldl (· + ·) 0 = x + l.foldl (· + ·) 0 := by
  simp only [List.foldl_cons]
  rw [foldl_add_shift l (0 + x)]
  omega

theorem tokenTransfer_mget (bal bal1 : List (Addr × Nat)) (src dst : Addr) (amt : Nat)
    (h : tokenTransfer bal src dst amt = .ok bal1) (a : Addr) (ha : a ≠ src) :
    mget bal1 a 0 = mget bal a 0 + (if a = dst then amt else 0) := by
  unfold tokenTransfer at h
  split at h
  · cases h
  · cases h
    by_cases had : a = dst
    · subst had
      rw [mget_mset_self]
      rw [mget_mset_ne _ _ _ _ _ ha]
      rw [if_pos rfl]
    · rw [mget_mset_ne _ _ _ _ _ had, mget_mset_ne _ _ _ _ _ ha, if_neg had]
      omega

theorem payoutPass_balance (s : Sys) (total totalShare : Nat) (ids : List Nat)
    (bal bal' : List (Addr × Nat))
    (h : payoutPass s total totalShare ids bal = .ok bal')
    (a : Addr) (ha : a ≠ vaultAddr) :
    mget bal' a 0 = mget bal a 0 + activePayoutSum s.claims total totalShare ids a := by
  induction ids generalizing bal with
  | nil =>
    simp only [payoutPass] at h
    cases h
    simp [activePayoutSum]
  | cons id rest ih =>
    simp only [payoutPass] at h
    split at h
    · cases h
    · next cd hcd =>
      have hsum : activePayoutSum s.claims total totalShare (id :: rest) a =
          (if cd.status = .Active ∧ cd.owner = a
            then total * cd.basisPoints / totalShare else 0) +
            activePayoutSum s.claims total totalShare rest a := by
        simp only [activePayoutSum, List.map_cons, hcd]
        rw [foldl_add_cons]
      split at h
      · next hact =>
        split at h
        · next hpos =>
          split at h
          · cases h
          · next bal1 htr =>
            have hb1 : mget bal1 a 0 = mget bal a 0 +
                (if a = cd.owner then total * cd.basisPoints / totalShare else 0) :=
              tokenTransfer_mget _ _ _ _ _ htr a ha
            rw [ih bal1 h, hb1, hsum]
            by_cases hoa : cd.owner = a
            · have h1 : (if a = cd.owner
                  then total * cd.basisPoints / totalShare else 0) =
                  total * cd.basisPoints / totalShare := if_pos hoa.symm
              have h2 : (if cd.status = ClaimStatus.Active ∧ cd.owner = a
                  then total * cd.basisPoints / totalShare else 0) =
                  total * cd.basisPoints / totalShare := if_pos ⟨hact, hoa⟩
              omega
            · have h1 : (if a = cd.owner
                  then total * cd.basisPoints / totalShare else 0) = 0 :=
                if_neg (fun hh => hoa hh.symm)
              have h2 : (if cd.status = ClaimStatus.Active ∧ cd.owner = a
                  then total * cd.basisPoints / totalShare else 0) = 0 :=
                if_neg (fun hh => hoa hh.2)
              omega
        · next hz =>
          rw [ih bal h, hsum]
          have hz2 : total * cd.basisPoints / totalShare = 0 :=
            Nat.eq_zero_of_not_pos hz
          have h2 : (if cd.status = ClaimStatus.Active ∧ cd.owner = a
              then total * cd.basisPoints / totalShare else 0) = 0 := by
            rw [hz2]
            split <;> rfl
          omega
      · next hact =>
        rw [ih bal h, hsum]
        have h2 : (if cd.status = ClaimStatus.Active ∧ cd.owner = a
            then total * cd.basisPoints / totalShare else 0) = 0 :=
          if_neg (fun hh => hact hh.1)
        omega

theorem activeTotals_share (s : Sys) (ids : List Nat) (n bp : Nat)
    (h : activeTotals s ids = .ok (n, bp)) :
    bp = activeShareSum s.claims ids := by
  induction ids generalizing n bp with
  | nil =>
    simp only [activeTotals] at h
    cases h
    simp [activeShareSum]
  | cons id rest ih =>
    simp only [activeTotals] at h
    split at h
    · cases h
    · next cd hcd =>
      split at h
      · cases h
      · next n2 bp2 hrec =>
        have hsum : activeShareSum s.claims (id :: rest) =
            (if cd.status = .Active then cd.basisPoints else 0) +
              activeShareSum s.claims rest := by
          simp only [activeShareSum, List.map_cons, hcd]
          rw [foldl_add_cons]
        split at h
        · next hact =>
          cases h
          rw [hsum, if_pos hact, ih n2 bp2 hrec]
          omega
        · next hact =>
          cases h
          rw [hsum, if_neg hact, ih _ _ hrec]
          omega

theorem distributeRevenue_ok_balances (s s' : Sys) (h : distributeRevenue s = .ok s') :
    totalRevenueOf s ≠ 0 ∧
    ∃ ac tbp, activeTotals s (mget s.projectClaims s.project.projectId []) =
        .ok (ac, tbp) ∧ ac ≠ 0 ∧
      ∃ bal, payoutPass s (totalRevenueOf s) tbp
          (mget s.projectClaims s.project.projectId []) s.balances = .ok bal ∧
        s' = { s with balances := bal, revenueEntries := [] } := by
  unfold distributeRevenue at h
  split at h
  · cases h
  · split at h
    · cases h
    · next htot =>
      split at h
      · cases h
      · next ac tbp hat =>
        split at h
        · cases h
        · next hac =>
          split at h
          · cases h
          · next bal hpp =>
            cases h
            exact ⟨htot, ac, tbp, hat, hac, bal, hpp, rfl⟩

theorem totalRevenueOf_append (s : Sys) (e : RevenueEntry) :
    totalRevenueOf { s with revenueEntries := s.revenueEntries ++ [e] } =
      totalRevenueOf s + e.amount := by
  simp only [totalRevenueOf, List.map_append, List.foldl_append,
    List.map_cons, List.map_nil, List.foldl_cons, List.foldl_nil]

/-! ## Behaviour of the batch verification loop -/

theorem batchStore_preserved (m : List (String × PaymentProof)) (ts : List PaymentTuple)
    (ref : String) (h : (mget m ref PaymentProof.zero).verified = true) :
    mget (batchStore m ts) ref PaymentProof.zero = mget m ref PaymentProof.zero := by
  induction ts generalizing m with
  | nil => rfl
  | cons t rest ih =>
    simp only [batchStore]
    split
    · exact ih m h
    · next hv =>
      have hne : ref ≠ t.txHash := fun he => hv (he ▸ h)
      rw [ih _ (by rw [mget_mset_ne _ _ _ _ _ hne]; exact h)]
      rw [mget_mset_ne _ _ _ _ _ hne]

theorem batchStore_covers (m : List (String × PaymentProof)) (ts : List PaymentTuple)
    (ref : String) (h : ref ∈ ts.map PaymentTuple.txHash) :
    (mget (batchStore m ts) ref PaymentProof.zero).verified = true := by
  induction ts generalizing m with
  | nil => cases h
  | cons t rest ih =>
    simp only [batchStore]
    have h2 : ref = t.txHash ∨ ref ∈ rest.map PaymentTuple.txHash := by
      rw [List.map_cons] at h
      exact List.mem_cons.mp h
    rcases h2 with he | hrest
    · subst he
      split
      · next hv =>
        rw [batchStore_preserved m rest _ hv]
        exact hv
      · next hv =>
        have hm : (mget (mset m t.txHash
            ({ txHash := t.txHash, sender := t.sender, recipient := t.recipient
               amount := t.amount, timestamp := t.timestamp
               blockNumber := t.blockNumber, verified := true })) t.txHash
              PaymentProof.zero).verified = true := by
          rw [mget_mset_self]
        rw [batchStore_preserved _ rest _ hm]
        rw [mget_mset_self]
    · split
      · exact ih m hrest
      · exact ih _ hrest

/-! ## Verified claims -/

/-- C1: calling `processPayment` twice with the same payment reference mints
exactly one claim — the second call fails with `DuplicatePayment`; in every
reachable state at most one claim carries any given payment reference and a
reference with a claim is marked processed (set atomically with the mint);
and any failing operation leaves the state unchanged. -/
theorem paymentIntake_exactly_once :
    (∀ (s s1 : Sys) (inv : Addr) (amt : Nat) (ref : String) (price t : Nat)
       (inv2 : Addr) (amt2 price2 t2 : Nat),
      processPayment s inv amt ref price t = .ok s1 →
      processPayment s1 inv2 amt2 ref price2 t2 = .error .duplicatePayment) ∧
    (∀ (cfg : Config) (s : Sys), Reachable cfg s →
      ∀ r : String, refCount s.claims r ≤ 1 ∧
        (1 ≤ refCount s.claims r →
          mget s.processedPayments (keccakB (strBytes r)) false = true)) ∧
    (∀ (op : Op) (s : Sys) (e : Err), stepOp op s = .error e → applyOp op s = s) := by
  refine ⟨?_, ?_, ?_⟩
  · intro s s1 inv amt ref price t inv2 amt2 price2 t2 h
    obtain ⟨hact, _, _, _, _, hs⟩ := processPayment_ok _ _ _ _ _ _ _ h
    subst hs
    simp [processPayment, hact, mget_mset_self]
  · intro cfg s h r
    exact payInv_reachable cfg s h r
  · intro op s e h
    simp [applyOp, h]

/-- Closed witness for C1: in the concrete scenario the second
`processPayment` with reference `tx1` fails with `DuplicatePayment`, and
the reference-count bound holds at the reachable state `sW2`. -/
theorem paymentIntake_exactly_once_witness :
    processPayment sW2 "bob" 7000 "tx1" 60 14 = .error .duplicatePayment ∧
    refCount sW2.claims "tx1" ≤ 1 := by
  have hr : Reachable cfgW sW2 :=
    .next _ (.next _ .deployed trivial) trivial
  exact ⟨paymentIntake_exactly_once.1 sW1 sW2 "alice" 25000 "tx1" 62 13
      "bob" 7000 60 14 rfl,
    (paymentIntake_exactly_once.2.1 cfgW sW2 hr "tx1").1⟩

/-- C2 counterexample: a state reachable by the engine's operations
(verify, processPayment/mint, and the registry status update `pause`)
violates the claimed invariant: claim 0 has status `Staked` while zero
active rewards reference it — the status-update operations perform no
pairing bookkeeping. -/
theorem stakedIff_counterexample :
    Reachable cfgW sPaused ∧ ¬ StakePairInv sPaused := by
  constructor
  · exact .next _ (.next _ (.next _ .deployed trivial) trivial) trivial
  · intro hsp
    have h1 := (hsp.1 0 _ rfl).1
    exact absurd (h1.mp rfl) (by decide)

/-- C2 amended: in every state reachable by the engine's operations other
than the registry's raw status updates (`pause`/`unpause` invoked
directly), a claim has status `Staked` iff exactly one active reward
references it (and never more than one active reward references any
claim). -/
theorem stakedIff_pairing_amended (cfg : Config) (s : Sys)
    (h : ReachableW (fun op => isStatusUpdateOp op = false) cfg s) :
    ∀ i c, s.claims.get? i = some c →
      (c.status = .Staked ↔ activeRewardCount s.rewards i = 1) ∧
      activeRewardCount s.rewards i ≤ 1 :=
  fun i c hc => (pairInv_reachable cfg s h).1 i c hc

/-- Closed witness for the amended C2: after the stake trace, claim 0 is
`Staked` and exactly one active reward references it. -/
theorem stakedIff_pairing_amended_witness :
    activeRewardCount sStaked.rewards 0 = 1 := by
  have hr : ReachableW (fun op => isStatusUpdateOp op = false) cfgW sStaked :=
    .next _ (.next _ (.next _ .deployed (by decide)) (by decide)) (by decide)
  exact ((stakedIff_pairing_amended cfgW sStaked hr 0 _ rfl).1).mp rfl

/-- C3: on every successful distribution, an address that is not the vault
receives exactly the sum, over the active claims it owns, of
`floor(total * basisPoints / totalShare)` where `total` is the pending
revenue sum and `totalShare` the sum of active basis points; in
particular shares [2000, 3000, 5000] with total 1000 pay [200, 300, 500]
and shares [3333, 3333, 3334] with total 10 pay [3, 3, 3]. -/
theorem distribute_prorata :
    (∀ (s s' : Sys) (a : Addr), distributeRevenue s = .ok s' → a ≠ vaultAddr →
      mget s'.balances a 0 = mget s.balances a 0 +
        activePayoutSum s.claims (totalRevenueOf s)
          (activeShareSum s.claims (mget s.projectClaims s.project.projectId []))
          (mget s.projectClaims s.project.projectId []) a) ∧
    (distributeRevenue exSys1 = .ok exSys1d ∧
      mget exSys1d.balances "ada" 0 = 200 ∧ mget exSys1d.balances "ben" 0 = 300 ∧
      mget exSys1d.balances "cyd" 0 = 500) ∧
    (distributeRevenue exSys2 = .ok exSys2d ∧
      mget exSys2d.balances "ada" 0 = 3 ∧ mget exSys2d.balances "ben" 0 = 3 ∧
      mget exSys2d.balances "cyd" 0 = 3) := by
  refine ⟨?_, ⟨rfl, by decide, by decide, by decide⟩,
    ⟨rfl, by decide, by decide, by decide⟩⟩
  intro s s' a h ha
  obtain ⟨_, ac, tbp, hat, _, bal, hpp, hs⟩ := distributeRevenue_ok_balances s s' h
  subst hs
  rw [← activeTotals_share s _ ac tbp hat]
  exact payoutPass_balance s _ tbp _ s.balances bal hpp a ha

/-- Closed witness for C3: the general pro-rata formula evaluated at
example 1 for owner `ada`. -/
theorem distribute_prorata_witness :
    mget exSys1d.balances "ada" 0 = mget exSys1.balances "ada" 0 +
      activePayoutSum exSys1.claims (totalRevenueOf exSys1)
        (activeShareSum exSys1.claims
          (mget exSys1.projectClaims exSys1.project.projectId []))
        (mget exSys1.projectClaims exSys1.project.projectId []) "ada" :=
  distribute_prorata.1 exSys1 exSys1d "ada" rfl (by decide)

/-- C5: every successful distribution clears the project's pending revenue
queue entirely, and the flooring remainder is discarded: the pending total
afterwards is 0, and after a later `addRevenue amt` the pending total is
exactly `amt` (the remainder is not carried forward); in example 2 one
unit of the 10 stays with the vault and a later `addRevenue 5` makes the
next total 5. -/
theorem distribute_drains_queue :
    (∀ s s' : Sys, distributeRevenue s = .ok s' →
      s'.revenueEntries = [] ∧ totalRevenueOf s' = 0 ∧
      ∀ (amt : Nat) (src : String) (t : Nat) (s'' : Sys),
        addRevenue s' amt src t = .ok s'' → totalRevenueOf s'' = amt) ∧
    (mget exSys2d.balances vaultAddr 0 = 1 ∧ exSys2d.revenueEntries = [] ∧
      totalRevenueOf (applyOp (.addRevenue 5 "vod2" 1) exSys2d) = 5) := by
  constructor
  · intro s s' h
    obtain ⟨_, ac, tbp, hat, hac, bal, hpp, hs⟩ := distributeRevenue_ok_balances s s' h
    subst hs
    refine ⟨rfl, rfl, ?_⟩
    intro amt src t s2 h2
    obtain ⟨hamt, hs2⟩ := addRevenue_ok _ _ _ _ _ h2
    subst hs2
    rw [totalRevenueOf_append]
    have h0 : totalRevenueOf { s with balances := bal, revenueEntries := [] } = 0 := rfl
    rw [h0]
    exact Nat.zero_add amt
  · exact ⟨by decide, rfl, by decide⟩

/-- Closed witness for C5 at example 2. -/
theorem distribute_drains_queue_witness :
    exSys2d.revenueEntries = [] ∧ totalRevenueOf exSys2d = 0 :=
  ⟨(distribute_drains_queue.1 exSys2 exSys2d rfl).1,
   (distribute_drains_queue.1 exSys2 exSys2d rfl).2.1⟩

/-- C4 counterexample: from a reachable state in which claim 0 is `Staked`
(with its active reward live), the registry's `unpause` — not the
stake/burn path — succeeds and moves the claim to `Active`; no
`InvalidTransition` failure occurs anywhere in the registry. -/
theorem statusTransitions_counterexample :
    Reachable cfgW sStaked ∧
    ((sStaked.claims.get? 0).map Claim.status) = some .Staked ∧
    isStakeBurnOp (.unpause 0) = false ∧
    stepOp (.unpause 0) sStaked = .ok sUnpaused ∧
    ((sUnpaused.claims.get? 0).map Claim.status) = some .Active ∧
    activeRewardCount sUnpaused.rewards 0 = 1 := by
  refine ⟨.next _ (.next _ (.next _ .deployed trivial) trivial) trivial,
    rfl, rfl, rfl, rfl, by decide⟩

/-- C4 amended: the registry's status operations perform no transition
validation: for an existing claim, `pause` sets the status to `Staked` and
`unpause` sets it to `Active` unconditionally, whatever the prior status
(including `Slashed` — it is not enforced terminal); the only failure of
either operation is `ClaimNotFound` (`tokenNotFound`) for a missing token,
and no `InvalidTransition` error exists. -/
theorem statusTransitions_amended (s : Sys) (t : Nat) :
    (s.claims.get? t = none →
      pause s t = .error .tokenNotFound ∧ unpause s t = .error .tokenNotFound) ∧
    (∀ c, s.claims.get? t = some c →
      pause s t = .ok { s with claims := s.claims.set t { c with status := .Staked } } ∧
      unpause s t = .ok { s with
        claims := s.claims.set t { c with status := .Active } }) := by
  constructor
  · intro hn
    constructor
    · unfold pause; rw [hn]
    · unfold unpause; rw [hn]
  · intro c hc
    constructor
    · unfold pause; rw [hc]
    · unfold unpause; rw [hc]

/-- Closed witness for the amended C4: `pause` moves a `Slashed` claim to
`Staked` (and `unpause` to `Active`) without any validation failure. -/
theorem statusTransitions_amended_witness :
    pause sSlashed 0 = .ok { sSlashed with
      claims := sSlashed.claims.set 0 { slashedClaim with status := .Staked } } ∧
    unpause sSlashed 0 = .ok { sSlashed with
      claims := sSlashed.claims.set 0 { slashedClaim with status := .Active } } :=
  (statusTransitions_amended sSlashed 0).2 slashedClaim rfl

/-- C6 (code bug): a milestone attestation is created successfully and
stored verified under the returned key `attKeyC6`, and the milestone is
`Pending`; yet `unlockMilestone`, given that returned key in its standard
string rendering, fails with `InvalidAttestation`, because the vault
re-hashes the string argument (`keccak256(abi.encodePacked(attestationHash))`,
src/lib/xrpl.ts line 524) so the lookup key can never equal the stored
key. -/
theorem unlockMilestone_rehash_failing_input :
    createMilestoneAttestation sAtt1 "ver" 7 0 "m1" "d1" "p" 5 =
      .ok (attKeyC6, sAtt2) ∧
    verifyMilestoneAttestation sAtt2 attKeyC6 = true ∧
    ((sAtt2.milestones.get? 0).map Milestone.status) = some .Pending ∧
    unlockMilestone sAtt2 0 (hexEncode attKeyC6) 9 = .error .invalidAttestation :=
  ⟨rfl, by decide, rfl, rfl⟩

/-- C7: every transfer or approval operation on a claim fails with
`NonTransferable` and leaves the state unchanged, and no operation of the
engine changes the owner of an existing claim (minting only appends). -/
theorem claims_nonTransferable :
    (∀ (s : Sys) (caller dst : Addr) (tid : Nat),
      claimApprove s caller dst tid = .error .nonTransferable ∧
      applyOp (.claimApprove caller dst tid) s = s) ∧
    (∀ (s : Sys) (caller op2 : Addr) (b : Bool),
      claimSetApprovalForAll s caller op2 b = .error .nonTransferable ∧
      applyOp (.claimSetApprovalForAll caller op2 b) s = s) ∧
    (∀ (s : Sys) (caller f dst : Addr) (tid : Nat),
      claimTransferFrom s caller f dst tid = .error .nonTransferable ∧
      applyOp (.claimTransferFrom caller f dst tid) s = s) ∧
    (∀ (op : Op) (s : Sys) (i : Nat) (c : Claim), s.claims.get? i = some c →
      ∃ c', (applyOp op s).claims.get? i = some c' ∧ c'.owner = c.owner) :=
  ⟨fun _ _ _ _ => ⟨rfl, rfl⟩, fun _ _ _ _ => ⟨rfl, rfl⟩,
   fun _ _ _ _ _ => ⟨rfl, rfl⟩, claimOwner_applyOp⟩

/-- Closed witness for C7: claim 0's owner survives a direct `pause` at the
concrete state `sW2`. -/
theorem claims_nonTransferable_witness :
    ∃ c', (applyOp (.pause 0) sW2).claims.get? 0 = some c' ∧ c'.owner = "alice" := by
  have h := claims_nonTransferable.2.2.2 (.pause 0) sW2 0 _ rfl
  exact h

/-- C8: `verifyPayment` fails with `AlreadyVerified` when the reference
already has a verified proof, and otherwise stores exactly one verified
proof (other references untouched) and returns true; the batch variant
never errors on already-verified entries — it leaves their stored proof
unchanged and stores verified proofs for all supplied references — and
succeeds whenever the six parallel arrays have equal length. -/
theorem verifyPayment_reject_batch_skip :
    (∀ (s : Sys) (r : String) (sd rc : Addr) (a t b : Nat),
      (mget s.xrplPaymentProofs r PaymentProof.zero).verified = true →
      verifyXRPLPayment s r sd rc a t b = .error .alreadyVerified) ∧
    (∀ (s s' : Sys) (r : String) (sd rc : Addr) (a t b : Nat) (v : Bool),
      verifyXRPLPayment s r sd rc a t b = .ok (v, s') →
      v = true ∧
      mget s'.xrplPaymentProofs r PaymentProof.zero =
        { txHash := r, sender := sd, recipient := rc, amount := a, timestamp := t
          blockNumber := b, verified := true } ∧
      ∀ r2, r2 ≠ r → mget s'.xrplPaymentProofs r2 PaymentProof.zero =
        mget s.xrplPaymentProofs r2 PaymentProof.zero) ∧
    (∀ (s s' : Sys) (refs : List String) (sds rcs : List Addr)
       (ams ts bs : List Nat),
      batchVerifyXRPLPayments s refs sds rcs ams ts bs = .ok s' →
      (∀ r, (mget s.xrplPaymentProofs r PaymentProof.zero).verified = true →
        mget s'.xrplPaymentProofs r PaymentProof.zero =
          mget s.xrplPaymentProofs r PaymentProof.zero) ∧
      (∀ r, r ∈ (zipPayments refs sds rcs ams ts bs).map PaymentTuple.txHash →
        (mget s'.xrplPaymentProofs r PaymentProof.zero).verified = true)) ∧
    (∀ (s : Sys) (refs : List String) (sds rcs : List Addr) (ams ts bs : List Nat),
      refs.length = sds.length → refs.length = rcs.length →
      refs.length = ams.length → refs.length = ts.length →
      refs.length = bs.length →
      (batchVerifyXRPLPayments s refs sds rcs ams ts bs).isOk = true) := by
  refine ⟨?_, ?_, ?_, ?_⟩
  · intro s r sd rc a t b h
    unfold verifyXRPLPayment
    rw [if_pos h]
  · intro s s' r sd rc a t b v h
    obtain ⟨_, hv, hs⟩ := verifyXRPLPayment_ok _ _ _ _ _ _ _ _ _ h
    subst hs
    refine ⟨hv, mget_mset_self _ _ _ _, ?_⟩
    intro r2 hr2
    exact mget_mset_ne _ _ _ _ _ hr2
  · intro s s' refs sds rcs ams ts bs h
    rw [batchVerifyXRPLPayments_ok _ _ _ _ _ _ _ _ h]
    exact ⟨fun r hr => batchStore_preserved _ _ r hr,
      fun r hr => batchStore_covers _ _ r hr⟩
  · intro s refs sds rcs ams ts bs h1 h2 h3 h4 h5
    unfold batchVerifyXRPLPayments
    rw [if_neg (by omega), if_neg (by omega), if_neg (by omega), if_neg (by omega),
      if_neg (by omega)]
    rfl

/-- Closed witness for C8: at `sW1` the reference `tx1` is already
verified, so a repeated `verifyPayment` errors with `AlreadyVerified`. -/
theorem verifyPayment_reject_batch_skip_witness :
    verifyXRPLPayment sW1 "tx1" "s2" "r2" 5 6 7 = .error .alreadyVerified :=
  verifyPayment_reject_batch_skip.1 sW1 "tx1" "s2" "r2" 5 6 7 (by decide)

/-- C9 counterexample: with `totalFunding = 100` and an oracle-verified
payment of amount 200, `processPayment` succeeds and mints a claim with
20000 basis points — the upper bound of 10000 claimed for created claims
is not enforced by the code. -/
theorem basisPoints_cap_counterexample :
    Reachable cfg9 s9b ∧
    processPayment s9 "bob" 200 "t9" 50 3 = .ok s9b ∧
    ((s9b.claims.get? 0).map Claim.basisPoints) = some 20000 ∧ 10000 < 20000 := by
  refine ⟨.next _ (.next _ .deployed trivial) trivial, rfl, rfl, by decide⟩

/-- C9 amended: every claim minted by `processPayment` has
`basisPoints = floor(amount * 10000 / totalFunding)` with the lower bound
`1 ≤ basisPoints` enforced (`ContributionTooSmall` is raised exactly when
the floor is 0, once the earlier guards pass); no upper bound is
enforced. -/
theorem basisPoints_amended :
    (∀ (s s' : Sys) (inv : Addr) (amt : Nat) (ref : String) (price t : Nat),
      processPayment s inv amt ref price t = .ok s' →
      ∃ c, s'.claims.get? s.claims.length = some c ∧
        c.basisPoints = amt * 10000 / s.project.totalFunding ∧
        1 ≤ c.basisPoints) ∧
    (∀ (s : Sys) (inv : Addr) (amt : Nat) (ref : String) (price t : Nat),
      s.project.isActive = true →
      mget s.processedPayments (keccakB (strBytes ref)) false = false →
      amt ≠ 0 → isXRPLPaymentVerified s ref = true →
      amt * 10000 / s.project.totalFunding = 0 →
      processPayment s inv amt ref price t = .error .contributionTooSmall) := by
  constructor
  · intro s s' inv amt ref price t h
    obtain ⟨_, _, _, _, hbp, hs⟩ := processPayment_ok _ _ _ _ _ _ _ h
    subst hs
    exact ⟨_, get?_append_len _ _, rfl, Nat.pos_of_ne_zero hbp⟩
  · intro s inv amt ref price t h1 h2 h3 h4 h5
    simp [processPayment, h1, h2, h3, h4, h5]

/-- Closed witness for the amended C9: the over-large payment mints a claim
with exactly `200 * 10000 / 100 = 20000 ≥ 1` basis points, and a verified
payment of 5 against funding 100000 floors to 0 and fails
`ContributionTooSmall`. -/
theorem basisPoints_amended_witness :
    (∃ c, s9b.claims.get? s9.claims.length = some c ∧
      c.basisPoints = 200 * 10000 / s9.project.totalFunding ∧
      1 ≤ c.basisPoints) ∧
    processPayment sW1 "dana" 5 "tx1" 60 15 = .error .contributionTooSmall :=
  ⟨basisPoints_amended.1 s9 s9b "bob" 200 "t9" 50 3 rfl,
   basisPoints_amended.2 sW1 "dana" 5 "tx1" 60 15 rfl rfl (by decide) rfl rfl⟩

/-- C10: reward token ids start at 0 while 0 is also the `claimToReward`
"no reward" sentinel: minting the very first reward (token id 0) for claim
`c` leaves `hasActiveReward c` reporting `false` although that reward
exists and is active, and the duplicate guard of `mintReward` accepts a
second reward for the same claim. -/
theorem rewardZero_sentinel (cfg : Config) (dst dst2 : Addr)
    (c pid bp t pid2 bp2 t2 : Nat) :
    ∃ s1 : Sys, mintReward (initSys cfg) dst c pid bp t = .ok (0, s1) ∧
      ((s1.rewards.get? 0).map RewardData.isActive) = some true ∧
      ((s1.rewards.get? 0).map RewardData.claimTokenId) = some c ∧
      hasActiveReward s1 c = false ∧
      (mintReward s1 dst2 c pid2 bp2 t2).isOk = true := by
  refine ⟨_, rfl, rfl, rfl, ?_, ?_⟩
  · simp [hasActiveReward, mget_mset_self, initSys]
  · simp only [mintReward, mget_mset_self, initSys]
    rfl

end CineFlare
